import Mathlib

/-!
# Verification of the SpineFrame sync-agent HL7 integration engine

A shallow embedding, in Lean 4, of the core logic of the sync agent:
the HL7 protocol codec (`parseHL7`, the segment projections, the batch
splitter and the DFT^P03 generator), the retry/disposition logic of the
sync orchestrator, the file watcher's debounce/queue state machine, and
the export orchestrator's two-phase confirmation flow.

Raw text is modelled as `List Char` and the JavaScript string operations
of the source (`split`, `trim`, `includes`, `startsWith`, ...) are
embedded as executable functions on character lists.  Time-variant
values produced by `new Date()` / `Date.now()` in the source (message
timestamps, control ids, formatted dates) are threaded as explicit
parameters, as are the outcomes of filesystem and network calls.
-/

namespace SyncAgent

/-- Raw text / JavaScript strings, modelled as lists of characters. -/
abbrev Str := List Char

/-- Whitespace characters recognised by JavaScript `trim` (ASCII part). -/
def isWS (c : Char) : Bool :=
  c = ' ' || c = '\t' || c = '\n' || c = '\r' || c = '\x0b' || c = '\x0c'

/-- JavaScript `s.trim()`: strip whitespace from both ends. -/
def trimList (s : Str) : Str :=
  ((s.dropWhile isWS).reverse.dropWhile isWS).reverse

/-- Split a string at every character satisfying `p` (single-character
separators, empty chunks kept), as JavaScript `split` does for a
one-character-class regex. -/
def splitPred (p : Char → Bool) : Str → List Str
  | [] => [[]]
  | c :: cs =>
    if p c then [] :: splitPred p cs
    else
      match splitPred p cs with
      | [] => [[c]]
      | t :: ts => (c :: t) :: ts

/-- JavaScript `array[i] || ''`: an absent entry yields the empty string. -/
def fieldAt (f : List Str) (i : Nat) : Str := f.getD i []

/-- First chunk of a split (always exists). -/
def headStr (l : List Str) : Str := l.headD []

def pipeP (c : Char) : Bool := c = '|'
def caretP (c : Char) : Bool := c = '^'
def tildeP (c : Char) : Bool := c = '~'
def isCRLF (c : Char) : Bool := c = '\r' || c = '\n'

/-- `(s || '').split('^')[0]`. -/
def firstCaret (s : Str) : Str := headStr (splitPred caretP s)

/-- JavaScript `a.includes(b)` as a prefix test helper: is `pat` a prefix
of `s`? -/
def isPrefixList : Str → Str → Bool
  | [], _ => true
  | _ :: _, [] => false
  | a :: as, b :: bs => a == b && isPrefixList as bs

/-- JavaScript `s.includes(pat)`: substring occurrence. -/
def containsSub (pat : Str) : Str → Bool
  | [] => pat.isEmpty
  | c :: cs => isPrefixList pat (c :: cs) || containsSub pat cs

/-- JavaScript `s.toUpperCase()` (ASCII). -/
def upperStr (s : Str) : Str := s.map Char.toUpper

/-! ## Data model (`src/models/hl7Message.ts`) -/

/-- The closed message-type enum of the agent. -/
inductive MessageType where
  | adtA04
  | adtA08
  | adtA31
  | dftP03
  | oruR01
  | unknown
deriving DecidableEq, Repr

structure ParsedAddress where
  line1 : Str
  line2 : Str
  city : Str
  state : Str
  zip : Str
deriving DecidableEq, Repr

structure ParsedName where
  lastName : Str
  firstName : Str
  middleName : Str
deriving DecidableEq, Repr

structure ParsedInsurance where
  payerId : Str
  payerName : Str
  memberId : Str
  groupId : Str
  relationship : Str
  planType : Str
deriving DecidableEq, Repr

structure PatientIdentifiers where
  mrn : Str
  ssnLast4 : Str
deriving DecidableEq, Repr

structure ParsedPatient where
  externalId : Str
  firstName : Str
  middleName : Str
  lastName : Str
  dob : Str
  gender : Str
  phone : Str
  email : Str
  address : ParsedAddress
  identifiers : PatientIdentifiers
  insurance : List ParsedInsurance
deriving DecidableEq, Repr

structure ParsedCPTLine where
  code : Str
  modifiers : List Str
  units : Int
  amount : Rat
  description : Str
deriving DecidableEq, Repr

structure ParsedEncounter where
  patientExternalId : Str
  visitExternalId : Str
  visitDate : Str
  visitTime : Str
  providerExternalId : Str
  facilityExternalId : Str
  icdCodes : List Str
  cptLines : List ParsedCPTLine
  notes : Str
deriving DecidableEq, Repr

structure ParsedNote where
  patientExternalId : Str
  visitExternalId : Str
  noteType : Str
  content : Str
deriving DecidableEq, Repr

/-- A parsed HL7 message.  `segs` keeps every parsed segment (its
pipe-split field list) in document order; the source's tag-keyed map
`segments` is recovered by filtering on the first field. -/
structure HL7Message where
  raw : Str
  segs : List (List Str)
  messageType : MessageType
  messageControlId : Str
  dateTime : Str
  sendingFacility : Str
  sendingApplication : Str
deriving DecidableEq, Repr

def segTag (f : List Str) : Str := fieldAt f 0

def tagMSH : Str := ['M', 'S', 'H']
def tagPID : Str := ['P', 'I', 'D']
def tagIN1 : Str := ['I', 'N', '1']
def tagFT1 : Str := ['F', 'T', '1']
def tagDG1 : Str := ['D', 'G', '1']
def tagOBR : Str := ['O', 'B', 'R']
def tagOBX : Str := ['O', 'B', 'X']

/-- `message.segments[tag]`: all segments with the given tag, in document
order. -/
def segsOfTag (m : HL7Message) (tag : Str) : List (List Str) :=
  m.segs.filter (fun f => segTag f == tag)

/-- `message.segments[tag]?.[0]`. -/
def firstSeg (m : HL7Message) (tag : Str) : Option (List Str) :=
  (segsOfTag m tag).head?

/-! ## Protocol codec: parsing (`src/services/hl7Parser.ts`) -/

/-- `formatDate`: HL7 `YYYYMMDD` to `YYYY-MM-DD`; short input yields `''`. -/
def formatDate (hl7Date : Str) : Str :=
  if hl7Date.length < 8 then []
  else hl7Date.take 4 ++ ['-'] ++ (hl7Date.drop 4).take 2 ++ ['-'] ++ (hl7Date.drop 6).take 2

/-- `formatDateTime`: HL7 `YYYYMMDDHHMMSS` to a date and a time string. -/
def formatDateTime (s : Str) : Str × Str :=
  (formatDate s,
   if 12 ≤ s.length then
     let ss := (s.drop 12).take 2
     (s.drop 8).take 2 ++ [':'] ++ (s.drop 10).take 2 ++ [':'] ++ (if ss.isEmpty then ['0', '0'] else ss)
   else [])

/-- `formatPhone`: digit-normalise to `NNN-NNN-NNNN` when exactly 10 digits. -/
def formatPhone (phone : Str) : Str :=
  let digits := phone.filter Char.isDigit
  if digits.length = 10 then
    digits.take 3 ++ ['-'] ++ (digits.drop 3).take 3 ++ ['-'] ++ digits.drop 6
  else phone

def pADTA04 : Str := ['A', 'D', 'T', '^', 'A', '0', '4']
def pADTA08 : Str := ['A', 'D', 'T', '^', 'A', '0', '8']
def pADTA31 : Str := ['A', 'D', 'T', '^', 'A', '3', '1']
def pDFTP03 : Str := ['D', 'F', 'T', '^', 'P', '0', '3']
def pORUR01 : Str := ['O', 'R', 'U', '^', 'R', '0', '1']

/-- The fixed allow-list of `TYPE^TRIGGER` patterns. -/
def typePatterns : List Str := [pADTA04, pADTA08, pADTA31, pDFTP03, pORUR01]

/-- `parseMessageType`: normalise by case, match against the allow-list,
anything else maps to `unknown`. -/
def parseMessageType (msgTypeField : Str) : MessageType :=
  let normalized := upperStr msgTypeField
  if containsSub pADTA04 normalized then .adtA04
  else if containsSub pADTA08 normalized then .adtA08
  else if containsSub pADTA31 normalized then .adtA31
  else if containsSub pDFTP03 normalized then .dftP03
  else if containsSub pORUR01 normalized then .oruR01
  else .unknown

/-- `parseHL7`: split the raw text into segment lines on CR/LF, drop
blank lines, pipe-split each line, and extract the header information
from the first `MSH` segment.  (The source splits on the run regex
`[\r\n]+` and then filters lines that are blank after trimming; splitting
at every single CR/LF character followed by the same filter yields the
same line list.) -/
def parseHL7 (rawText : Str) : HL7Message :=
  let lines := (splitPred isCRLF rawText).filter (fun s => !(trimList s).isEmpty)
  let segs := lines.map (splitPred pipeP)
  let base : HL7Message :=
    { raw := rawText, segs := segs, messageType := .unknown,
      messageControlId := [], dateTime := [], sendingFacility := [], sendingApplication := [] }
  match segs.find? (fun f => segTag f == tagMSH) with
  | none => base
  | some msh =>
    { base with
      sendingApplication := fieldAt msh 2
      sendingFacility := fieldAt msh 3
      dateTime := fieldAt msh 6
      messageType := parseMessageType (fieldAt msh 8)
      messageControlId := fieldAt msh 9 }

/-- `parseAddress`: `Street^^City^State^Zip`. -/
def parseAddress (addressField : Str) : ParsedAddress :=
  let parts := splitPred caretP addressField
  { line1 := fieldAt parts 0, line2 := fieldAt parts 1, city := fieldAt parts 2,
    state := fieldAt parts 3, zip := fieldAt parts 4 }

/-- `parseName`: `Last^First^Middle`. -/
def parseName (nameField : Str) : ParsedName :=
  let parts := splitPred caretP nameField
  { lastName := fieldAt parts 0, firstName := fieldAt parts 1, middleName := fieldAt parts 2 }

/-- JavaScript `s.slice(-4)`. -/
def lastN (n : Nat) (s : Str) : Str := s.drop (s.length - n)

def strSelf : Str := ['s', 'e', 'l', 'f']

/-- `parseInsuranceFromIN1`. -/
def parseInsuranceFromIN1 (in1 : List Str) : Option ParsedInsurance :=
  if in1.length < 4 then none
  else some
    { payerId := fieldAt in1 3
      payerName := fieldAt in1 4
      memberId := if (fieldAt in1 36).isEmpty then fieldAt in1 2 else fieldAt in1 36
      groupId := fieldAt in1 8
      relationship := if (fieldAt in1 17).isEmpty then strSelf else fieldAt in1 17
      planType := fieldAt in1 2 }

/-- `parsePatientFromADT`: `null` when the message has no `PID` segment. -/
def parsePatientFromADT (m : HL7Message) : Option ParsedPatient :=
  match firstSeg m tagPID with
  | none => none
  | some pid =>
    let name := parseName (fieldAt pid 5)
    let address := parseAddress (fieldAt pid 11)
    let externalId := firstCaret (fieldAt pid 3)
    some
      { externalId := externalId
        firstName := name.firstName
        middleName := name.middleName
        lastName := name.lastName
        dob := formatDate (fieldAt pid 7)
        gender := fieldAt pid 8
        phone := formatPhone (fieldAt pid 13)
        email := []
        address := address
        identifiers := { mrn := externalId, ssnLast4 := lastN 4 (fieldAt pid 19) }
        insurance := (segsOfTag m tagIN1).filterMap parseInsuranceFromIN1 }

/-- JavaScript `parseInt(s, 10)`: leading whitespace, optional sign, then
a decimal digit run; `none` models `NaN`. -/
def natOfDigits (s : Str) : Nat :=
  s.foldl (fun a c => a * 10 + (c.toNat - '0'.toNat)) 0

def parseIntJS (s : Str) : Option Int :=
  let t := s.dropWhile isWS
  match t with
  | '-' :: rest =>
    let d := rest.takeWhile Char.isDigit
    if d.isEmpty then none else some (-(natOfDigits d : Int))
  | '+' :: rest =>
    let d := rest.takeWhile Char.isDigit
    if d.isEmpty then none else some (natOfDigits d : Int)
  | _ =>
    let d := t.takeWhile Char.isDigit
    if d.isEmpty then none else some (natOfDigits d : Int)

/-- JavaScript `parseFloat(s) || 0` as used by the source: parse an
optionally signed decimal `digits[.digits]` prefix; `NaN` and `0` both
fall back to `0` (exponent notation is not modelled). -/
def parseFloatQ (s : Str) : Rat :=
  let t := s.dropWhile isWS
  let core := fun (u : Str) (sign : Rat) =>
    let ip := u.takeWhile Char.isDigit
    let rest := u.drop ip.length
    let fp := match rest with
      | '.' :: r => r.takeWhile Char.isDigit
      | _ => []
    if ip.isEmpty && fp.isEmpty then 0
    else sign * ((natOfDigits ip : Rat) + (natOfDigits fp : Rat) / ((10 : Rat) ^ fp.length))
  match t with
  | '-' :: rest => core rest (-1)
  | '+' :: rest => core rest 1
  | _ => core t 1

/-- `parseCPTFromFT1`: `null` when the segment is short or field 7 has no
code before the first caret. -/
def parseCPTFromFT1 (ft1 : List Str) : Option ParsedCPTLine :=
  if ft1.length < 7 then none
  else
    let codeParts := splitPred caretP (fieldAt ft1 7)
    let code := fieldAt codeParts 0
    let description := fieldAt codeParts 1
    if code.isEmpty then none
    else some
      { code := code
        modifiers := []
        units := match parseIntJS (fieldAt ft1 10) with
                 | some n => if n = 0 then 1 else n
                 | none => 1
        amount := parseFloatQ (fieldAt ft1 11)
        description := description }

/-- `encounter.icdCodes` collection step: push a code unless it is empty
or already collected. -/
def addIcdCode (acc : List Str) (c : Str) : List Str :=
  if c ≠ [] ∧ c ∉ acc then acc ++ [c] else acc

/-- One `FT1` iteration of `parseEncounterFromDFT`: when the segment
yields a CPT line, push it and merge the tilde-separated diagnosis codes
of field 19; otherwise leave the state untouched. -/
def ft1Step (st : List Str × List ParsedCPTLine) (f : List Str) :
    List Str × List ParsedCPTLine :=
  match parseCPTFromFT1 f with
  | none => st
  | some line =>
    let codes := (splitPred tildeP (fieldAt f 19)).map firstCaret
    (codes.foldl addIcdCode st.1, st.2 ++ [line])

/-- `parseEncounterFromDFT`: `null` without a `PID`; ICD codes are the
deduplicated `DG1` field-3 codes followed by the field-19 codes of every
`FT1` segment that yields a CPT line. -/
def parseEncounterFromDFT (m : HL7Message) : Option ParsedEncounter :=
  match firstSeg m tagPID with
  | none => none
  | some pid =>
    let patientExternalId := firstCaret (fieldAt pid 3)
    let ft1o := firstSeg m tagFT1
    let visitDate := match ft1o with
      | some f => formatDate (fieldAt f 4)
      | none => (formatDateTime m.dateTime).1
    let visitTime := (formatDateTime m.dateTime).2
    let visitExternalId := match ft1o with
      | some f => if (fieldAt f 2).isEmpty then m.messageControlId else fieldAt f 2
      | none => m.messageControlId
    let icd1 := (segsOfTag m tagDG1).foldl
      (fun acc d => addIcdCode acc (firstCaret (fieldAt d 3))) []
    let st := (segsOfTag m tagFT1).foldl ft1Step (icd1, [])
    some
      { patientExternalId := patientExternalId
        visitExternalId := visitExternalId
        visitDate := visitDate
        visitTime := visitTime
        providerExternalId := []
        facilityExternalId := m.sendingFacility
        icdCodes := st.1
        cptLines := st.2
        notes := [] }

def strChart : Str := ['c', 'h', 'a', 'r', 't']

/-- `parseNoteFromORU`: `null` without a `PID`; the note body joins the
non-empty `OBX` field-5 values with a newline. -/
def parseNoteFromORU (m : HL7Message) : Option ParsedNote :=
  match firstSeg m tagPID with
  | none => none
  | some pid =>
    let patientExternalId := firstCaret (fieldAt pid 3)
    let visitExternalId := match firstSeg m tagOBR with
      | none => m.messageControlId
      | some o =>
        if (fieldAt o 2).isEmpty then
          (if (fieldAt o 3).isEmpty then m.messageControlId else fieldAt o 3)
        else fieldAt o 2
    let content := (segsOfTag m tagOBX).foldl
      (fun acc o =>
        let c := fieldAt o 5
        if c.isEmpty then acc else (if acc.isEmpty then c else acc ++ '\n' :: c)) []
    some
      { patientExternalId := patientExternalId
        visitExternalId := visitExternalId
        noteType := strChart
        content := content }

/-! ## Derived views of the ICD-code collection -/

/-- Folding `addIcdCode` over a list of candidate codes. -/
def icdFold (acc : List Str) (cs : List Str) : List Str := cs.foldl addIcdCode acc

/-- The raw (possibly empty) diagnosis-code candidates of one `FT1`
segment: tilde-split field 19, first caret component of each repetition. -/
def ft1RawDiags (f : List Str) : List Str :=
  (splitPred tildeP (fieldAt f 19)).map firstCaret

/-- The raw (possibly empty) `DG1` code candidates: first caret component
of field 3 of every `DG1` segment. -/
def dg1RawCodes (m : HL7Message) : List Str :=
  (segsOfTag m tagDG1).map (fun d => firstCaret (fieldAt d 3))

/-- The `FT1` segments that yield a CPT line. -/
def ft1CptSegs (m : HL7Message) : List (List Str) :=
  (segsOfTag m tagFT1).filter (fun f => (parseCPTFromFT1 f).isSome)

/-- The non-empty `DG1` codes of a message. -/
def dg1CodesOf (m : HL7Message) : List Str :=
  (dg1RawCodes m).filter (fun c => !c.isEmpty)

/-- The non-empty field-19 codes of the `FT1` segments that yield a CPT
line. -/
def ft1CptDiagCodesOf (m : HL7Message) : List Str :=
  (((ft1CptSegs m).map ft1RawDiags).flatten).filter (fun c => !c.isEmpty)

/-- Modelled from the spec (claim C1's words): "the deduplicated union of
the codes in field 3 of every DG1 segment and the codes embedded
(tilde-separated, first caret component) in field 19 of every FT1 segment
of the message" — with no condition on the FT1 segment carrying a CPT
code. -/
def claimedIcdUnion (m : HL7Message) : List Str :=
  ((dg1RawCodes m ++ ((segsOfTag m tagFT1).map ft1RawDiags).flatten).filter
    (fun c => !c.isEmpty)).dedup

/-- A concrete DFT message whose single `FT1` segment has an empty field 7
(no CPT code) but carries a diagnosis code in field 19. -/
def c1Input : Str :=
  ("MSH|^~\\&|APP|FAC||CLINIC|20240101||DFT^P03|C1\rPID|1||PX\rFT1|||||||||||||||||||D9.9^^ICD").data

/-- A default encounter record (used only to name computed values in
witnesses). -/
def defaultEncounter : ParsedEncounter :=
  { patientExternalId := [], visitExternalId := [], visitDate := [], visitTime := [],
    providerExternalId := [], facilityExternalId := [], icdCodes := [], cptLines := [], notes := [] }

/-- The encounter extracted from `c1Input`. -/
def c1WitnessEnc : ParsedEncounter :=
  (parseEncounterFromDFT (parseHL7 c1Input)).getD defaultEncounter

/-! ## Protocol codec: batch splitting -/

def mshHeader : Str := ['M', 'S', 'H', '|']

/-- Worker of the batch split: `acc` is the reversed current chunk; a cut
happens at every occurrence of `MSH|` except at position 0 (JavaScript
`split` on the zero-width lookahead `(?=MSH\x7c)` never cuts at the very
start of the string). -/
def splitMSHGo : Str → Str → List Str
  | acc, [] => [acc.reverse]
  | acc, c :: cs =>
    if isPrefixList mshHeader (c :: cs) && !acc.isEmpty then
      acc.reverse :: splitMSHGo [c] cs
    else splitMSHGo (c :: acc) cs

/-- `rawText.split(/(?=MSH\x7c)/)`. -/
def splitMSH (text : Str) : List Str := splitMSHGo [] text

/-- `splitHL7Batch`: split before each `MSH|`, trim each part, keep only
the non-empty parts that start with `MSH|`. -/
def splitHL7Batch (rawText : Str) : List Str :=
  ((splitMSH rawText).map trimList).filter
    (fun t => !t.isEmpty && isPrefixList mshHeader t)

/-! ## Protocol codec: generation (`hl7Generator.ts`, `generateDFTP03`)

The generator joins fields with `|`, components with `^`, repetitions
with `~` and segments with CR.  Its time-variant values — the `new Date()`
timestamp, the `Date.now()`-derived control id, and the JS-`Date`-based
formatting of the date of service and date of birth — are threaded in as
explicit `GenParams`; monetary amounts are carried as exact cents so that
`toFixed(2)` is exact formatting. -/

structure ExportAddress where
  street : Str
  city : Str
  state : Str
  zipCode : Str
  zip : Str
deriving DecidableEq, Repr

structure ExportPatient where
  firstName : Str
  lastName : Str
  middleName : Str
  dob : Str
  sex : Str
  phone : Str
  recordNumber : Str
  address : Option ExportAddress
deriving DecidableEq, Repr

structure ExportPayer where
  payerId : Str
  name : Str
  groupNumber : Str
  policyNumber : Str
  memberId : Str
deriving DecidableEq, Repr

structure BillingCode where
  code : Str
  description : Str
  modifiers : List Str
  quantity : Int
  chargeCents : Int
deriving DecidableEq, Repr

structure ExportProvider where
  npi : Str
  name : Str
deriving DecidableEq, Repr

structure ExportClaim where
  claimId : Str
  dateOfService : Str
  patient : ExportPatient
  payer : ExportPayer
  billingCodes : List BillingCode
  diagnosisCodes : List Str
  billingProvider : Option ExportProvider
  renderingProvider : Option ExportProvider
deriving DecidableEq, Repr

structure ExportClinicInfo where
  code : Str
  emrLinkType : Str
  npi : Str
deriving DecidableEq, Repr

/-- Time-variant values of the generator, passed as parameters:
`formatDateTime(new Date())`, `generateControlId()`,
`formatDate(claim.dateOfService)` and `formatDate(claim.patient.dob)`. -/
structure GenParams where
  timestamp : Str
  controlId : Str
  dosFormatted : Str
  dobFormatted : Str
deriving DecidableEq, Repr

def digitChar : Nat → Char
  | 0 => '0'
  | 1 => '1'
  | 2 => '2'
  | 3 => '3'
  | 4 => '4'
  | 5 => '5'
  | 6 => '6'
  | 7 => '7'
  | 8 => '8'
  | 9 => '9'
  | _ => '*'

/-- Decimal digits of a natural number (fuel-structured so it evaluates
in the kernel). -/
def natDigitsAux : Nat → Nat → Str
  | 0, _ => []
  | fuel + 1, n => if n < 10 then [digitChar n] else natDigitsAux fuel (n / 10) ++ [digitChar (n % 10)]

def natDigits (n : Nat) : Str := natDigitsAux (n + 1) n

/-- JavaScript `String(n)` for an integer. -/
def intToStr (n : Int) : Str := (if n < 0 then ['-'] else []) ++ natDigits n.natAbs

/-- `amount.toFixed(2)` on an exact amount in cents. -/
def toFixed2 (cents : Int) : Str :=
  (if cents < 0 then ['-'] else []) ++ natDigits (cents.natAbs / 100) ++ ['.'] ++
  (if cents.natAbs % 100 < 10 then '0' :: [digitChar (cents.natAbs % 100)]
   else natDigits (cents.natAbs % 100))

/-- `formatAddress`: `STREET^^CITY^STATE^Zip` (zip not upper-cased),
empty for a missing address. -/
def formatAddress : Option ExportAddress → Str
  | none => []
  | some addr =>
    upperStr addr.street ++ '^' :: '^' :: upperStr addr.city ++ '^' :: upperStr addr.state ++
      '^' :: (if addr.zipCode.isEmpty then addr.zip else addr.zipCode)

def tagEVN : Str := ['E', 'V', 'N']
def tagPV1 : Str := ['P', 'V', '1']
def strSPINEFRAME : Str := ("SPINEFRAME").data
def strPROCLAIM : Str := ("PROCLAIM").data
def strEMD85 : Str := ("EMD85").data
def strICD10 : Str := ("ICD10").data
def strICD : Str := ['I', 'C', 'D']
def strEncChars : Str := ['^', '~', '\\', '&']

/-- `MSH` fields of the generated DFT^P03. -/
def mshFields (gp : GenParams) (clinic : ExportClinicInfo) : List Str :=
  [tagMSH, strEncChars, strSPINEFRAME, clinic.code, strPROCLAIM,
   (if clinic.emrLinkType.isEmpty then strEMD85 else clinic.emrLinkType),
   gp.timestamp, [], pDFTP03, gp.controlId, ['P'], ['2', '.', '4']]

/-- `EVN` fields. -/
def evnFields (gp : GenParams) : List Str := [tagEVN, ['P', '0', '3'], gp.timestamp]

/-- The upper-cased `Last^First^Middle` name component of the PID. -/
def genPatientName (claim : ExportClaim) : Str :=
  upperStr claim.patient.lastName ++ '^' :: upperStr claim.patient.firstName ++
    '^' :: upperStr claim.patient.middleName

/-- `PID` fields: record number in 2 and 3, name in 5, birth date in 7,
sex in 8, address in 11, phone in 13. -/
def pidFields (gp : GenParams) (claim : ExportClaim) : List Str :=
  let sex : Str := if claim.patient.sex = ("Female").data then ['F']
    else if claim.patient.sex = ("Male").data then ['M'] else ['U']
  let dob : Str := if claim.patient.dob.isEmpty then [] else gp.dobFormatted
  [tagPID, ['1'], claim.patient.recordNumber, claim.patient.recordNumber, [],
   genPatientName claim, [], dob, sex, [], [], formatAddress claim.patient.address, [],
   claim.patient.phone]

/-- `NPI^Name` of the rendering provider, empty without an NPI. -/
def attendingDoctor (claim : ExportClaim) : Str :=
  let npi : Str := match claim.renderingProvider with
    | none => []
    | some p => p.npi
  let name : Str := match claim.renderingProvider with
    | none => []
    | some p => p.name
  if npi.isEmpty then [] else npi ++ '^' :: name

/-- `VIS` + first 10 characters of the claim id, upper-cased. -/
def genVisitId (claim : ExportClaim) : Str :=
  'V' :: 'I' :: 'S' :: upperStr (claim.claimId.take 10)

/-- `PV1` fields. -/
def pv1Fields (claim : ExportClaim) : List Str :=
  [tagPV1, ['1'], ['O'], [], [], [], attendingDoctor claim, attendingDoctor claim,
   [], [], [], [], [], [], [], [], [], [], genVisitId claim]

/-- `IN1` fields: payer id/name, group number, insured name,
relationship `self`, member id (policy number preferred) last. -/
def in1Fields (claim : ExportClaim) : List Str :=
  let insuredName : Str :=
    upperStr claim.patient.lastName ++ '^' :: upperStr claim.patient.firstName
  let memberId : Str :=
    if claim.payer.policyNumber.isEmpty then claim.payer.memberId else claim.payer.policyNumber
  [tagIN1, ['1'], [], claim.payer.payerId, claim.payer.name, [], [], [],
   claim.payer.groupNumber, [], [], [], [], [], [], [], [],
   insuredName, strSelf, [], [], [], [], [], [], [], [], [], [], [], [], [], [],
   memberId]

/-- `{code}^^ICD~{code2}^^ICD` formatting of the diagnosis codes. -/
def diagCodesFormatted (claim : ExportClaim) : Str :=
  List.intercalate ['~'] (claim.diagnosisCodes.map (fun c => c ++ '^' :: '^' :: strICD))

/-- `FT1` fields for one billing code: transaction code (field 7) left
empty, quantity in 10, amount in 11, diagnosis codes in 19, procedure
code `CPT^DESCRIPTION` in 25, modifiers (at most 4, tilde-joined) in
26. -/
def ft1Fields (gp : GenParams) (claim : ExportClaim) (clinic : ExportClinicInfo)
    (idx : Nat) (code : BillingCode) : List Str :=
  let modifiersArr := code.modifiers.take 4
  [tagFT1, natDigits (idx + 1), claim.claimId.take 20, [],
   gp.dosFormatted, gp.dosFormatted, ['C', 'G'], [], [], [],
   intToStr code.quantity, toFixed2 code.chargeCents, [], [], [], [],
   clinic.code, [], [], diagCodesFormatted claim, attendingDoctor claim,
   [], [], [], [],
   code.code ++ '^' :: upperStr code.description,
   (if modifiersArr.isEmpty then [] else List.intercalate ['~'] modifiersArr)]

/-- `DG1` fields for one diagnosis code: `ICD10`, `code^code`, priority
`W`. -/
def dg1Fields (idx : Nat) (code : Str) : List Str :=
  [tagDG1, natDigits (idx + 1), strICD10, code ++ '^' :: code, [], [], ['W']]

/-- All segments of the generated DFT^P03, as field lists in order:
`MSH, EVN, PID, PV1, IN1, FT1*, DG1*`. -/
def genSegments (gp : GenParams) (claim : ExportClaim) (clinic : ExportClinicInfo) :
    List (List Str) :=
  [mshFields gp clinic, evnFields gp, pidFields gp claim, pv1Fields claim, in1Fields claim] ++
  (claim.billingCodes.enum.map (fun ic => ft1Fields gp claim clinic ic.1 ic.2)) ++
  (claim.diagnosisCodes.enum.map (fun ic => dg1Fields ic.1 ic.2))

/-- `generateDFTP03`: fields joined with `|`, segments joined with CR. -/
def generateDFTP03 (gp : GenParams) (claim : ExportClaim) (clinic : ExportClinicInfo) : Str :=
  List.intercalate ['\r'] ((genSegments gp claim clinic).map (List.intercalate ['|']))

/-- Modelled from the spec (claim C4's words): the CPT line that
re-parsing the generated output is claimed to reproduce for one input
billing code — same code, modifiers (at most 4), quantity, amount and
description. -/
def claimedCPTLine (b : BillingCode) : ParsedCPTLine :=
  { code := b.code, modifiers := b.modifiers.take 4, units := b.quantity,
    amount := (b.chargeCents : Rat) / 100, description := b.description }

/-- A concrete export claim with one billing code and one diagnosis
code. -/
def c4Claim : ExportClaim :=
  { claimId := ("CLM12345").data
    dateOfService := ("2024-01-15").data
    patient :=
      { firstName := ("Jane").data, lastName := ("Doe").data, middleName := []
        dob := ("1980-02-03").data, sex := ("Female").data, phone := ("555-111-2222").data
        recordNumber := ("PX77").data, address := none }
    payer :=
      { payerId := ("PAY1").data, name := ("ACME HEALTH").data, groupNumber := ("G1").data
        policyNumber := ("POL9").data, memberId := ("MEM1").data }
    billingCodes :=
      [{ code := ("97110").data, description := ("Therapy").data, modifiers := [("GP").data]
         quantity := 2, chargeCents := 5025 }]
    diagnosisCodes := [("M54.5").data]
    billingProvider := none
    renderingProvider := some { npi := ("1234567890").data, name := ("SMITH JOHN").data } }

def c4Clinic : ExportClinicInfo :=
  { code := ("CLIN1").data, emrLinkType := [], npi := ("999").data }

def c4Gp : GenParams :=
  { timestamp := ("20240115120000").data, controlId := ("SFABC123").data
    dosFormatted := ("20240115").data, dobFormatted := ("19800203").data }

/-- A single text beginning with `MSH|` but containing a second `MSH|`
occurrence in a segment body. -/
def c5Cex : Str := ("MSH|ONE\rZZZ|abMSH|cd").data

/-- Two well-formed concatenated messages. -/
def c5WitnessMsgs : List Str := [("MSH|A\rPID|1").data, ("MSH|B").data]

/-! ## Sync orchestrator (`src/services/syncService.ts`) -/

/-- File dispositions decided by the sync orchestrator. -/
inductive Disposition where
  | deletedFile
  | movedToProcessed
  | leftInPlace
  | scheduledRetry
  | permanentFail (moved : Bool)
deriving DecidableEq, Repr

/-- `handleFailedFile`: read the current consecutive-failure count
(0 when no ledger entry); below `maxRetries`, increment the ledger and
schedule a retry without moving the file; otherwise delete the ledger
entry and (when a failed folder is configured) move the file there. -/
def handleFailedFile (maxRetries : Nat) (failedFolder : Bool) (ledger : Option Nat) :
    Option Nat × Disposition :=
  let currentRetries := ledger.getD 0
  if currentRetries < maxRetries then (some (currentRetries + 1), .scheduledRetry)
  else (none, .permanentFail failedFolder)

/-- `handleSuccessfulFile`: delete the ledger entry and delete the file
or move it to the processed folder, per configuration. -/
def handleSuccessfulFile (deleteAfterSync moveToProcessed processedFolder : Bool)
    (ledger : Option Nat) : Option Nat × Disposition :=
  (none,
   if deleteAfterSync then .deletedFile
   else if moveToProcessed && processedFolder then .movedToProcessed
   else .leftInPlace)

/-- The ledger state of one file after `k` consecutive failures starting
from a fresh ledger. -/
def ledgerAfterFailures (maxRetries : Nat) : Nat → Option Nat
  | 0 => none
  | k + 1 => (handleFailedFile maxRetries true (ledgerAfterFailures maxRetries k)).1

/-- Remote calls the sync orchestrator can issue for one message. -/
inductive ApiCall where
  | upsertPatient (p : ParsedPatient)
  | createEncounterCharge (e : ParsedEncounter)
  | createNote (n : ParsedNote)
deriving DecidableEq, Repr

/-- The routing switch of `processHL7Message`: patient messages upsert
the parsed patient, charges create an encounter charge, results create a
note, and a null projection or an unknown type issues no call. -/
def routeMessage (m : HL7Message) : List ApiCall :=
  match m.messageType with
  | .adtA04 | .adtA08 | .adtA31 =>
    match parsePatientFromADT m with
    | some p => [.upsertPatient p]
    | none => []
  | .dftP03 =>
    match parseEncounterFromDFT m with
    | some e => [.createEncounterCharge e]
    | none => []
  | .oruR01 =>
    match parseNoteFromORU m with
    | some n => [.createNote n]
    | none => []
  | .unknown => []

/-- `processHL7Message` as a call trace: parse the chunk and route it. -/
def processHL7MessageCalls (content : Str) : List ApiCall :=
  routeMessage (parseHL7 content)

/-- All remote calls issued while processing one file (`processFile`):
batch-split the content and process each message in document order. -/
def fileCalls (content : Str) : List ApiCall :=
  ((splitHL7Batch content).map processHL7MessageCalls).flatten

/-- One file is successful exactly when every issued call succeeds
(a throwing call fails the whole file). -/
def processFileSuccess (api : ApiCall → Bool) (content : Str) : Bool :=
  (fileCalls content).all api

/-- The try/catch of `processFile`: success runs `handleSuccessfulFile`,
any failure runs `handleFailedFile`. -/
def processFileStep (deleteAfterSync moveToProcessed processedFolder : Bool)
    (maxRetries : Nat) (failedFolder : Bool) (api : ApiCall → Bool)
    (ledger : Option Nat) (content : Str) : Option Nat × Disposition :=
  if processFileSuccess api content then
    handleSuccessfulFile deleteAfterSync moveToProcessed processedFolder ledger
  else handleFailedFile maxRetries failedFolder ledger

/-- A concrete ADT message with no `PID` segment. -/
def c9Input : Str :=
  ("MSH|^~\\&|APP|FAC||CLINIC|20240101||ADT^A04|C9\rEVN|A04|20240101").data

/-! ## Folder queue and watcher (`FileWatcherService`)

The watcher is event-driven; it is modelled as a state machine whose
transitions are the code paths of `onFileAdded`, the debounce-timer
expiry (running `validateAndQueueFile`), the locked-file re-validation
timer, and the completion of the in-flight processing callback
(`processNextFile`'s `finally` block, which immediately picks up the next
queued file).  Filesystem answers (`existsSync`, `statSync`, the
exclusive-open probe) are supplied by an environment; paths are numbered. -/

/-- `MAX_FILE_SIZE` (10MB). -/
def maxFileSizeBytes : Nat := 10 * 1024 * 1024

/-- Filesystem environment of the watcher: extension allow-list check,
existence, size, exclusive-open lock probe, and creation time per path. -/
structure WatchEnv where
  validExt : Nat → Bool
  fsExists : Nat → Bool
  fileSize : Nat → Nat
  locked : Nat → Bool
  birth : Nat → Nat

/-- `FileEvent` of the watcher (path and `stats.birthtime`). -/
structure WFileEvent where
  filePath : Nat
  createdAt : Nat
deriving DecidableEq, Repr

/-- State of `FileWatcherService`: the debounce-timer map keys, the
anonymous locked-file re-validation timers, the processing queue, the
in-flight slot (`isProcessing` plus the dequeued event), the
`processedFiles` set, and a log of processing starts. -/
structure WatcherState where
  pending : List Nat
  revalidate : List Nat
  queue : List WFileEvent
  inFlight : Option WFileEvent
  processed : List Nat
  started : List WFileEvent
deriving DecidableEq, Repr

def initWatcher : WatcherState :=
  { pending := [], revalidate := [], queue := [], inFlight := none,
    processed := [], started := [] }

/-- Scheduler events delivered to the watcher. -/
inductive WEvent where
  | fileAdded (p : Nat)
  | debounceFire (p : Nat)
  | revalidateFire (p : Nat)
  | complete (ok : Bool)
deriving DecidableEq, Repr

/-- Insert a key into a set-like list. -/
def insertPath (l : List Nat) (p : Nat) : List Nat := if p ∈ l then l else l ++ [p]

/-- Comparison used by `processingQueue.sort((a, b) => a.createdAt - b.createdAt)`. -/
def timeLE (a b : WFileEvent) : Bool := a.createdAt ≤ b.createdAt

/-- Ordered insertion by creation time. -/
def insertByTime (e : WFileEvent) : List WFileEvent → List WFileEvent
  | [] => [e]
  | x :: xs => if timeLE e x then e :: x :: xs else x :: insertByTime e xs

/-- The queue re-sort performed after every push
(`sort((a, b) => a.createdAt - b.createdAt)`), as an insertion sort by
creation time ascending. -/
def sortQueue : List WFileEvent → List WFileEvent
  | [] => []
  | x :: xs => insertByTime x (sortQueue xs)

/-- `processNextFile`: return when already processing or the queue is
empty; otherwise shift the oldest queued event, mark it processed, and
start the processing callback on it. -/
def processNext (s : WatcherState) : WatcherState :=
  match s.inFlight with
  | some _ => s
  | none =>
    match s.queue with
    | [] => s
    | e :: rest =>
      { s with
        queue := rest
        inFlight := some e
        processed := insertPath s.processed e.filePath
        started := s.started ++ [e] }

/-- `validateAndQueueFile`: drop vanished files, reject oversized files,
reschedule locked files, and otherwise push the event, re-sort the queue
by creation time ascending, and try to process the next file. -/
def validateAndQueueFile (env : WatchEnv) (p : Nat) (s : WatcherState) : WatcherState :=
  if !env.fsExists p then s
  else if maxFileSizeBytes < env.fileSize p then s
  else if env.locked p then { s with revalidate := s.revalidate ++ [p] }
  else processNext { s with queue := sortQueue (s.queue ++ [⟨p, env.birth p⟩]) }

/-- `onFileAdded`: filter by extension, skip paths already marked
processed, and (re)start the per-path debounce timer. -/
def onFileAdded (env : WatchEnv) (p : Nat) (s : WatcherState) : WatcherState :=
  if !env.validExt p then s
  else if p ∈ s.processed then s
  else { s with pending := insertPath s.pending p }

/-- One scheduler step of the watcher. -/
def stepWatcher (env : WatchEnv) (s : WatcherState) : WEvent → WatcherState
  | .fileAdded p => onFileAdded env p s
  | .debounceFire p =>
    if p ∈ s.pending then
      validateAndQueueFile env p { s with pending := s.pending.erase p }
    else s
  | .revalidateFire p =>
    if p ∈ s.revalidate then
      validateAndQueueFile env p { s with revalidate := s.revalidate.erase p }
    else s
  | .complete ok =>
    match s.inFlight with
    | none => s
    | some e =>
      processNext { s with
        inFlight := none
        processed := if ok then s.processed else s.processed.erase e.filePath }

def runWatcher (env : WatchEnv) (evs : List WEvent) : WatcherState :=
  evs.foldl (stepWatcher env) initWatcher

/-- An environment where every path is a valid, small, unlocked, existing
file whose creation time is its path number. -/
def watchEnvAllOk : WatchEnv :=
  { validExt := fun _ => true, fsExists := fun _ => true, fileSize := fun _ => 0,
    locked := fun _ => false, birth := fun p => p }

/-- Event trace re-delivering path 1 while it is already queued (path 0
is in flight). -/
def c3Trace : List WEvent :=
  [.fileAdded 0, .debounceFire 0, .fileAdded 1, .debounceFire 1,
   .fileAdded 1, .debounceFire 1, .complete true, .complete true, .complete true]

/-- Sortedness of the processing queue by creation time. -/
def queueSorted (q : List WFileEvent) : Prop :=
  List.Pairwise (fun a b => timeLE a b = true) q

/-! ## Export orchestrator (`exportService.ts`, confirmation-aware
`processExports`)

Filesystem writes and remote-call outcomes are supplied by an
environment; the procedure's observable behaviour is collected into an
outcome record: the filesystem operations performed in order, the
per-claim results, the activity items emitted, the confirmation /
legacy-mark calls issued, and the statistics deltas. -/

/-- Filesystem operations a service can perform.  The export path only
ever emits `writeFile`. -/
inductive FsOp where
  | writeFile (name : Str) (content : Str)
  | removeFile (name : Str)
  | renameFile (src dst : Str)
deriving DecidableEq, Repr

structure ConfirmExportResult where
  claimId : Str
  success : Bool
  fileName : Option Str
  error : Option Str
deriving DecidableEq, Repr

inductive ExpActType where
  | success
  | error
  | info
deriving DecidableEq, Repr

/-- The distinct activity messages `processExports` can emit. -/
inductive ExpActMsg where
  | confirmationFailedFilesWrittenLocal (err : Str)
  | exportedSummary (succ fail : Nat)
  | allClaimsFailed (n : Nat)
  | exportFailed (err : Str)
deriving DecidableEq, Repr

structure ExpActivity where
  type : ExpActType
  msg : ExpActMsg
deriving DecidableEq, Repr

/-- Outcomes of the environment's filesystem and remote calls: whether
generating-and-writing each claim's file succeeds, and whether the
confirm-export / legacy mark-exported calls resolve. -/
structure ExpEnv where
  writeOk : Str → Bool
  writeErr : Str → Str
  confirmOk : Bool
  confirmErr : Str
  markOk : Bool
  markErr : Str

structure ExpOutcome where
  ops : List FsOp
  results : List ConfirmExportResult
  activity : List ExpActivity
  confirmCalled : Option (Str × List ConfirmExportResult)
  markCalled : Option (List Str)
  exportedDelta : Nat
  errorsDelta : Nat
deriving DecidableEq, Repr

/-- JavaScript `s.replace(sub, repl)` for plain-string arguments (first
occurrence only). -/
def replaceFirst (sub repl : Str) : Str → Str
  | [] => if sub.isEmpty then repl else []
  | c :: cs =>
    if isPrefixList sub (c :: cs) then repl ++ (c :: cs).drop sub.length
    else c :: replaceFirst sub repl cs

def patClinicCode : Str := ("{clinicCode}").data
def patTimestamp : Str := ("{timestamp}").data
def patHl7Ext : Str := (".hl7").data
def defaultFileNamePattern : Str := ("DFT_{clinicCode}_{timestamp}.hl7").data

/-- `generateFileName`: substitute the clinic code and timestamp into the
pattern and suffix the last 6 characters of the claim id before
`.hl7`. -/
def generateFileName (pattern ts clinicCode : Str) (claimId : Option Str) : Str :=
  let claimSuffix : Str := match claimId with
    | some cid => '_' :: lastN 6 cid
    | none => []
  replaceFirst patHl7Ext (claimSuffix ++ patHl7Ext)
    (replaceFirst patTimestamp ts (replaceFirst patClinicCode clinicCode pattern))

/-- The name of the file written for one claim. -/
def exportFileName (pat ts : Str) (clinic : ExportClinicInfo) (c : ExportClaim) : Str :=
  generateFileName pat ts clinic.code (some c.claimId)

/-- The write performed for one successfully exported claim. -/
def exportWriteOp (gp : GenParams) (pat ts : Str) (clinic : ExportClinicInfo)
    (c : ExportClaim) : FsOp :=
  FsOp.writeFile (exportFileName pat ts clinic c) (generateDFTP03 gp c clinic)

/-- The per-claim result recorded for a successful write. -/
def exportOkResult (pat ts : Str) (clinic : ExportClinicInfo) (c : ExportClaim) :
    ConfirmExportResult :=
  { claimId := c.claimId, success := true, fileName := some (exportFileName pat ts clinic c),
    error := none }

/-- The per-claim loop body of `processExports`: generate and write the
claim's file, recording a success or failure result. -/
def exportClaimStep (env : ExpEnv) (gp : GenParams) (pat ts : Str) (clinic : ExportClinicInfo)
    (st : List FsOp × List ConfirmExportResult × Nat × Nat) (claim : ExportClaim) :
    List FsOp × List ConfirmExportResult × Nat × Nat :=
  if env.writeOk claim.claimId then
    (st.1 ++ [exportWriteOp gp pat ts clinic claim],
     st.2.1 ++ [exportOkResult pat ts clinic claim], st.2.2.1 + 1, st.2.2.2)
  else
    (st.1,
     st.2.1 ++ [{ claimId := claim.claimId, success := false, fileName := none,
                  error := some (env.writeErr claim.claimId) }],
     st.2.2.1, st.2.2.2 + 1)

/-- `processExports` (the confirmation-aware variant): write one file per
claim, then either submit the full result batch with the fetch id, or —
without a fetch id — fall back to the legacy one-way mark-exported call;
a confirmation failure is logged as a distinct error without touching the
written files. -/
def processExports (env : ExpEnv) (gp : GenParams) (ts fileNamePattern : Str)
    (claims : List ExportClaim) (clinic : ExportClinicInfo) (fetchId : Option Str) :
    ExpOutcome :=
  let pat := if fileNamePattern.isEmpty then defaultFileNamePattern else fileNamePattern
  let st := claims.foldl (exportClaimStep env gp pat ts clinic) ([], [], 0, 0)
  let ops := st.1
  let results := st.2.1
  let successCount := st.2.2.1
  let failCount := st.2.2.2
  let summaries : List ExpActivity :=
    (if 0 < successCount then [⟨.success, .exportedSummary successCount failCount⟩] else []) ++
    (if 0 < failCount ∧ successCount = 0 then [⟨.error, .allClaimsFailed failCount⟩] else [])
  match fetchId with
  | some fid =>
    { ops := ops
      results := results
      activity := (if env.confirmOk then []
        else [⟨.error, .confirmationFailedFilesWrittenLocal env.confirmErr⟩]) ++ summaries
      confirmCalled := some (fid, results)
      markCalled := none
      exportedDelta := successCount
      errorsDelta := failCount }
  | none =>
    if 0 < successCount then
      (if env.markOk then
        { ops := ops
          results := results
          activity := summaries
          confirmCalled := none
          markCalled := some ((results.filter (fun r => r.success)).map (fun r => r.claimId))
          exportedDelta := successCount
          errorsDelta := failCount }
      else
        { ops := ops
          results := results
          activity := [⟨.error, .exportFailed env.markErr⟩]
          confirmCalled := none
          markCalled := some ((results.filter (fun r => r.success)).map (fun r => r.claimId))
          exportedDelta := 0
          errorsDelta := 1 })
    else
      { ops := ops
        results := results
        activity := summaries
        confirmCalled := none
        markCalled := none
        exportedDelta := successCount
        errorsDelta := failCount }

/-- An environment where every write succeeds but the confirm-export
call rejects. -/
def c7Env : ExpEnv :=
  { writeOk := fun _ => true, writeErr := fun _ => [], confirmOk := false,
    confirmErr := ("network down").data, markOk := true, markErr := [] }

/-! ## Basic lemmas about the embedded string primitives -/

/-- `splitPred` never returns the empty list of chunks. -/
theorem splitPred_ne_nil (p : Char → Bool) (s : Str) : splitPred p s ≠ [] := by
  cases s with
  | nil => simp [splitPred]
  | cons c cs =>
    simp only [splitPred]
    split
    · simp
    · split <;> simp

theorem headStr_eq_fieldAt (l : List Str) : headStr l = fieldAt l 0 := by
  cases l <;> rfl

/-! ## Lemmas about the ICD-code accumulation -/

theorem mem_addIcdCode {acc : List Str} {c x : Str} :
    x ∈ addIcdCode acc c ↔ x ∈ acc ∨ (x = c ∧ c ≠ []) := by
  unfold addIcdCode
  split
  case isTrue h => simp only [List.mem_append, List.mem_singleton]; tauto
  case isFalse h =>
    rw [not_and_or, not_not] at h
    constructor
    · tauto
    · rintro (hx | ⟨rfl, hc⟩)
      · exact hx
      · tauto

theorem nodup_addIcdCode {acc : List Str} (c : Str) (h : acc.Nodup) :
    (addIcdCode acc c).Nodup := by
  unfold addIcdCode
  split
  case isTrue hc =>
    rw [List.nodup_append]
    exact ⟨h, List.nodup_singleton c, by simpa using hc.2⟩
  case isFalse hc => exact h

theorem mem_icdFold {cs : List Str} {acc : List Str} {x : Str} :
    x ∈ icdFold acc cs ↔ x ∈ acc ∨ (x ∈ cs ∧ x ≠ []) := by
  induction cs generalizing acc with
  | nil => simp [icdFold]
  | cons c cs ih =>
    show x ∈ icdFold (addIcdCode acc c) cs ↔ _
    rw [ih, mem_addIcdCode]
    simp only [List.mem_cons]
    constructor
    · rintro ((hx | ⟨rfl, hc⟩) | ⟨hx, hne⟩) <;> tauto
    · rintro (hx | ⟨(rfl | hx), hne⟩) <;> tauto

theorem nodup_icdFold (cs : List Str) {acc : List Str} (h : acc.Nodup) :
    (icdFold acc cs).Nodup := by
  induction cs generalizing acc with
  | nil => exact h
  | cons c cs ih => exact ih (nodup_addIcdCode c h)

theorem icdFold_append (acc : List Str) (a b : List Str) :
    icdFold acc (a ++ b) = icdFold (icdFold acc a) b := by
  simp [icdFold, List.foldl_append]

/-- The first projection of the `FT1` fold collects exactly the raw
field-19 diagnosis codes of the CPT-yielding segments. -/
theorem ft1_foldl_fst (segs : List (List Str)) (icd : List Str) (cpts : List ParsedCPTLine) :
    (segs.foldl ft1Step (icd, cpts)).1 =
      icdFold icd (((segs.filter (fun f => (parseCPTFromFT1 f).isSome)).map ft1RawDiags).flatten) := by
  induction segs generalizing icd cpts with
  | nil => simp [icdFold]
  | cons f fs ih =>
    simp only [List.foldl_cons, List.filter_cons]
    cases h : parseCPTFromFT1 f with
    | none =>
      have hstep : ft1Step (icd, cpts) f = (icd, cpts) := by simp [ft1Step, h]
      rw [hstep, ih]
      simp [h]
    | some line =>
      have hstep : ft1Step (icd, cpts) f = (icdFold icd (ft1RawDiags f), cpts ++ [line]) := by
        simp [ft1Step, h, icdFold, ft1RawDiags]
      rw [hstep, ih]
      simp [h, icdFold_append]

/-- The second projection of the `FT1` fold appends exactly the parsed
CPT lines, in segment order. -/
theorem ft1_foldl_snd (segs : List (List Str)) (icd : List Str) (cpts : List ParsedCPTLine) :
    (segs.foldl ft1Step (icd, cpts)).2 = cpts ++ segs.filterMap parseCPTFromFT1 := by
  induction segs generalizing icd cpts with
  | nil => simp
  | cons f fs ih =>
    simp only [List.foldl_cons, List.filterMap_cons]
    cases h : parseCPTFromFT1 f with
    | none =>
      have hstep : ft1Step (icd, cpts) f = (icd, cpts) := by simp [ft1Step, h]
      rw [hstep, ih]
    | some line =>
      have hstep : ft1Step (icd, cpts) f = (icdFold icd (ft1RawDiags f), cpts ++ [line]) := by
        simp [ft1Step, h, icdFold, ft1RawDiags]
      rw [hstep, ih]
      simp

/-- Computation of the interesting projections of a successfully parsed
encounter. -/
theorem parseEncounterFromDFT_proj {m : HL7Message} {enc : ParsedEncounter}
    (h : parseEncounterFromDFT m = some enc) :
    enc.icdCodes = icdFold (icdFold [] (dg1RawCodes m)) (((ft1CptSegs m).map ft1RawDiags).flatten) ∧
    enc.cptLines = (segsOfTag m tagFT1).filterMap parseCPTFromFT1 := by
  unfold parseEncounterFromDFT at h
  cases hp : firstSeg m tagPID with
  | none => rw [hp] at h; exact absurd h (by simp)
  | some pid =>
    rw [hp] at h
    simp only at h
    have henc := Option.some.inj h
    have hdg : (segsOfTag m tagDG1).foldl
        (fun acc d => addIcdCode acc (firstCaret (fieldAt d 3))) [] = icdFold [] (dg1RawCodes m) := by
      rw [icdFold, dg1RawCodes, List.foldl_map]
    constructor
    · rw [← henc]
      show ((segsOfTag m tagFT1).foldl ft1Step (_, [])).1 = _
      rw [ft1_foldl_fst, hdg]
      rfl
    · rw [← henc]
      show ((segsOfTag m tagFT1).foldl ft1Step (_, [])).2 = _
      rw [ft1_foldl_snd]
      exact List.nil_append _

/-! ## Claim C1 -/

/-- C1 (counterexample): on a DFT message whose only `FT1` segment has an
empty field 7 but a diagnosis code in field 19, the extracted `icdCodes`
list is empty while the claimed deduplicated DG1/FT1-19 union contains
the code, so the extraction does not yield that union for every DFT
message. -/
theorem c1_counterexample :
    (parseEncounterFromDFT (parseHL7 c1Input)).map ParsedEncounter.icdCodes = some [] ∧
    ['D', '9', '.', '9'] ∈ claimedIcdUnion (parseHL7 c1Input) := by decide

/-- C1 (amended): whenever the charge extraction returns an encounter,
its `icdCodes` list is duplicate-free and holds exactly the non-empty
`DG1` field-3 codes together with the non-empty field-19 codes of those
`FT1` segments that yield a CPT line (an `FT1` segment without a CPT code
contributes no diagnosis codes). -/
theorem c1_icd_union (m : HL7Message) (enc : ParsedEncounter)
    (h : parseEncounterFromDFT m = some enc) :
    enc.icdCodes.Nodup ∧
    ∀ c : Str, c ∈ enc.icdCodes ↔ (c ∈ dg1CodesOf m ∨ c ∈ ft1CptDiagCodesOf m) := by
  obtain ⟨hicd, -⟩ := parseEncounterFromDFT_proj h
  constructor
  · rw [hicd]
    exact nodup_icdFold _ (nodup_icdFold _ List.nodup_nil)
  · intro c
    rw [hicd, mem_icdFold, mem_icdFold]
    rw [dg1CodesOf, ft1CptDiagCodesOf]
    simp only [List.not_mem_nil, false_or, List.mem_filter, Bool.not_eq_true',
      List.isEmpty_eq_false]

/-- C1 (witness): the amended theorem applied to the concrete message
`c1Input`. -/
theorem c1_witness : c1WitnessEnc.icdCodes.Nodup :=
  (c1_icd_union (parseHL7 c1Input) c1WitnessEnc (by decide)).1

/-! ## Claim C8 -/

/-- C8: the parser is total — it returns a structured message carrying
the raw input for every input string, an absent or short field yields the
empty string, and a message-type string matching none of the allow-list
patterns maps to `unknown`. -/
theorem c8_parser_total :
    (∀ rawText : Str, (parseHL7 rawText).raw = rawText) ∧
    (∀ (f : List Str) (i : Nat), f.length ≤ i → fieldAt f i = ([] : Str)) ∧
    (∀ s : Str, (∀ p ∈ typePatterns, containsSub p (upperStr s) = false) →
      parseMessageType s = .unknown) := by
  refine ⟨?_, ?_, ?_⟩
  · intro rawText
    cases h : (((splitPred isCRLF rawText).filter (fun s => !(trimList s).isEmpty)).map
        (splitPred pipeP)).find? (fun f => segTag f == tagMSH) <;>
      simp [parseHL7, h]
  · intro f i h
    exact List.getD_eq_default _ _ h
  · intro s hp
    have h04 := hp pADTA04 (by simp [typePatterns])
    have h08 := hp pADTA08 (by simp [typePatterns])
    have h31 := hp pADTA31 (by simp [typePatterns])
    have hdf := hp pDFTP03 (by simp [typePatterns])
    have hor := hp pORUR01 (by simp [typePatterns])
    simp [parseMessageType, h04, h08, h31, hdf, hor]

/-- C8 (witness): totality facts evaluated at concrete inputs. -/
theorem c8_witness :
    parseMessageType ['X'] = MessageType.unknown ∧ fieldAt [] 3 = ([] : Str) :=
  ⟨c8_parser_total.2.2 ['X'] (by decide), c8_parser_total.2.1 [] 3 (by decide)⟩

/-! ## Claim C10 -/

/-- C10: an `FT1` segment with fewer than 7 fields, an absent field 7, or
an empty first caret component in field 7 yields no CPT line, and the
encounter fold ignores it entirely — in particular its field-19 diagnosis
codes are not collected. -/
theorem c10_codeless_ft1_ignored (f : List Str)
    (h : f.length < 7 ∨ firstCaret (fieldAt f 7) = []) :
    parseCPTFromFT1 f = none ∧ ∀ st, ft1Step st f = st := by
  have hnone : parseCPTFromFT1 f = none := by
    unfold parseCPTFromFT1
    rcases h with h | h
    · simp [h]
    · by_cases hl : f.length < 7
      · simp [hl]
      · have hc : fieldAt (splitPred caretP (fieldAt f 7)) 0 = [] := by
          rw [← headStr_eq_fieldAt]
          exact h
        simp [hl, hc]
  exact ⟨hnone, fun st => by simp [ft1Step, hnone]⟩

/-- C10 (witness): the theorem applied to a one-field `FT1` segment. -/
theorem c10_witness : parseCPTFromFT1 [tagFT1] = none :=
  (c10_codeless_ft1_ignored [tagFT1] (Or.inl (by decide))).1

/-! ## Claim C2 -/

/-- Closed form of the ledger after `k ≤ maxRetries` consecutive
failures. -/
theorem ledgerAfterFailures_eq (maxRetries : Nat) :
    ∀ k, k ≤ maxRetries → ledgerAfterFailures maxRetries k = (if k = 0 then none else some k) := by
  intro k
  induction k with
  | zero => intro _; rfl
  | succ k ih =>
    intro hk
    have hk' : k ≤ maxRetries := Nat.le_of_succ_le hk
    have hklt : k < maxRetries := hk
    show (handleFailedFile maxRetries true (ledgerAfterFailures maxRetries k)).1 = _
    rw [ih hk']
    by_cases h0 : k = 0
    · subst h0
      simp [handleFailedFile, hklt]
    · simp only [h0, if_false]
      simp [handleFailedFile, hklt]

/-- C2 (counterexample): with `maxRetries = 1`, a file on its first —
hence `maxRetries`-th — failure is scheduled for retry, not moved to the
failed folder, so the move does not happen on the `maxRetries`-th
failure. -/
theorem c2_counterexample :
    (handleFailedFile 1 true none).2 = Disposition.scheduledRetry ∧
    Disposition.scheduledRetry ≠ Disposition.permanentFail true := by decide

/-- C2 (amended): each of the first `maxRetries` consecutive failures
schedules a retry with the ledger counting up to `maxRetries`; the
`(maxRetries+1)`-th consecutive failure moves the file to the failed
folder and deletes its ledger entry; a success at any attempt removes the
ledger entry and disposes the file normally (deleted, or moved to
processed, per configuration). -/
theorem c2_retry_law (maxRetries k : Nat) (hk : k ≤ maxRetries) :
    ledgerAfterFailures maxRetries k = (if k = 0 then none else some k) ∧
    (k < maxRetries →
      handleFailedFile maxRetries true (ledgerAfterFailures maxRetries k) =
        (some (k + 1), .scheduledRetry)) ∧
    handleFailedFile maxRetries true (ledgerAfterFailures maxRetries maxRetries) =
      (none, .permanentFail true) ∧
    (∀ d mp pf ledger, (handleSuccessfulFile d mp pf ledger).1 = none) ∧
    (∀ mp pf ledger, (handleSuccessfulFile true mp pf ledger).2 = .deletedFile) ∧
    (∀ ledger, (handleSuccessfulFile false true true ledger).2 = .movedToProcessed) := by
  refine ⟨ledgerAfterFailures_eq maxRetries k hk, ?_, ?_, ?_, ?_, ?_⟩
  · intro hlt
    rw [ledgerAfterFailures_eq maxRetries k hk]
    by_cases h0 : k = 0
    · subst h0; simp [handleFailedFile, hlt]
    · simp only [h0, if_false]
      simp [handleFailedFile, hlt]
  · rw [ledgerAfterFailures_eq maxRetries maxRetries (Nat.le_refl _)]
    by_cases h0 : maxRetries = 0
    · subst h0; simp [handleFailedFile]
    · simp only [h0, if_false]
      simp [handleFailedFile]
  · intro d mp pf ledger; rfl
  · intro mp pf ledger; rfl
  · intro ledger; rfl

/-- C2 (witness): the amended law evaluated at `maxRetries = 2` after one
failure. -/
theorem c2_witness : ledgerAfterFailures 2 1 = some 1 := by
  have h := (c2_retry_law 2 1 (by decide)).1
  simpa using h

/-! ## Claim C9 -/

/-- C9: a message without a `PID` segment projects to `null` under all
three projections and issues no remote call; a file whose every message
lacks a `PID` succeeds, so it is disposed through the success path with
its ledger entry removed. -/
theorem c9_no_pid_no_call :
    (∀ m : HL7Message, segsOfTag m tagPID = [] →
      parsePatientFromADT m = none ∧ parseEncounterFromDFT m = none ∧
      parseNoteFromORU m = none ∧ routeMessage m = []) ∧
    (∀ (content : Str) (api : ApiCall → Bool) (d mp pf ff : Bool) (maxR : Nat)
        (ledger : Option Nat),
      (∀ chunk ∈ splitHL7Batch content, segsOfTag (parseHL7 chunk) tagPID = []) →
      fileCalls content = [] ∧ processFileSuccess api content = true ∧
      processFileStep d mp pf maxR ff api ledger content =
        handleSuccessfulFile d mp pf ledger) := by
  have main : ∀ m : HL7Message, segsOfTag m tagPID = [] →
      parsePatientFromADT m = none ∧ parseEncounterFromDFT m = none ∧
      parseNoteFromORU m = none ∧ routeMessage m = [] := by
    intro m h
    have hfs : firstSeg m tagPID = none := by
      rw [firstSeg, h]
      rfl
    have hp : parsePatientFromADT m = none := by
      unfold parsePatientFromADT
      rw [hfs]
    have he : parseEncounterFromDFT m = none := by
      unfold parseEncounterFromDFT
      rw [hfs]
    have hn : parseNoteFromORU m = none := by
      unfold parseNoteFromORU
      rw [hfs]
    refine ⟨hp, he, hn, ?_⟩
    cases ht : m.messageType <;> simp [routeMessage, ht, hp, he, hn]
  refine ⟨main, ?_⟩
  intro content api d mp pf ff maxR ledger h
  have hnil : fileCalls content = [] := by
    rw [fileCalls]
    rw [List.eq_nil_iff_forall_not_mem]
    intro call hmem
    rw [List.mem_flatten] at hmem
    obtain ⟨calls, hcalls, hcall⟩ := hmem
    rw [List.mem_map] at hcalls
    obtain ⟨chunk, hchunk, rfl⟩ := hcalls
    have := (main (parseHL7 chunk) (h chunk hchunk)).2.2.2
    rw [processHL7MessageCalls, this] at hcall
    exact List.not_mem_nil _ hcall
  have hsucc : processFileSuccess api content = true := by
    rw [processFileSuccess, hnil]
    rfl
  exact ⟨hnil, hsucc, by rw [processFileStep, hsucc]; rfl⟩

/-- C9 (witness): the theorem applied to a concrete one-message file with
no `PID` segment. -/
theorem c9_witness : fileCalls c9Input = [] :=
  (c9_no_pid_no_call.2 c9Input (fun _ => true) true true true true 3 none (by decide)).1

/-! ## Lemmas about the batch splitter -/

theorem ipl_nil (s : Str) : isPrefixList [] s = true := rfl

theorem ipl_cons_nil (a : Char) (pat : Str) : isPrefixList (a :: pat) [] = false := rfl

theorem ipl_cons_cons (a b : Char) (pat s : Str) :
    isPrefixList (a :: pat) (b :: s) = ((a == b) && isPrefixList pat s) := rfl

/-- A prefix test survives appending on the right. -/
theorem ipl_append_right {pat s : Str} (t : Str) (h : isPrefixList pat s = true) :
    isPrefixList pat (s ++ t) = true := by
  induction pat generalizing s with
  | nil => rfl
  | cons a pat ih =>
    cases s with
    | nil => exact absurd h (by simp [ipl_cons_nil])
    | cons b s =>
      rw [ipl_cons_cons, Bool.and_eq_true] at h
      rw [List.cons_append, ipl_cons_cons, Bool.and_eq_true]
      exact ⟨h.1, ih h.2⟩

/-- The pattern is a prefix of itself followed by anything. -/
theorem ipl_self_append (pat t : Str) : isPrefixList pat (pat ++ t) = true := by
  induction pat with
  | nil => rfl
  | cons a pat ih => simp [ipl_cons_cons, ih]

/-- Destructuring a string that starts with `MSH|`. -/
theorem exists_of_msh {s : Str} (h : isPrefixList mshHeader s = true) :
    ∃ t, s = 'M' :: 'S' :: 'H' :: '|' :: t := by
  rcases s with _ | ⟨c1, s⟩
  · exact absurd h (by simp [mshHeader, ipl_cons_nil])
  rcases s with _ | ⟨c2, s⟩
  · exact absurd h (by simp [mshHeader, isPrefixList])
  rcases s with _ | ⟨c3, s⟩
  · exact absurd h (by simp [mshHeader, isPrefixList])
  rcases s with _ | ⟨c4, t⟩
  · exact absurd h (by simp [mshHeader, isPrefixList])
  simp only [mshHeader, ipl_cons_cons, Bool.and_eq_true, beq_iff_eq] at h
  obtain ⟨rfl, rfl, rfl, rfl, -⟩ := h
  exact ⟨t, rfl⟩

/-- No straddling: `MSH|` cannot begin across the boundary between a
non-matching non-empty block and a remainder that is empty or itself
header-fronted. -/
theorem msh_not_prefix_append {d rest : Str}
    (hne : d ≠ []) (hd : isPrefixList mshHeader d = false)
    (hr : rest = [] ∨ isPrefixList mshHeader rest = true) :
    isPrefixList mshHeader (d ++ rest) = false := by
  rcases hr with rfl | hr
  · rw [List.append_nil]; exact hd
  · obtain ⟨r, rfl⟩ := exists_of_msh hr
    rcases d with _ | ⟨x, d⟩
    · exact absurd rfl hne
    rcases d with _ | ⟨y, d⟩
    · simp [mshHeader, isPrefixList]
    rcases d with _ | ⟨z, d⟩
    · simp [mshHeader, isPrefixList]
    rcases d with _ | ⟨w, d⟩
    · simp [mshHeader, isPrefixList]
    simpa [mshHeader, isPrefixList] using hd

/-- The splitter worker walks through a span containing no cut point. -/
theorem splitMSHGo_through (s : Str) : ∀ (acc rest : Str), acc ≠ [] →
    (∀ i, i < s.length → isPrefixList mshHeader (s.drop i ++ rest) = false) →
    splitMSHGo acc (s ++ rest) = splitMSHGo (s.reverse ++ acc) rest := by
  induction s with
  | nil => intro acc rest _ _; simp
  | cons c cs ih =>
    intro acc rest hacc h
    have h0 : isPrefixList mshHeader (c :: (cs ++ rest)) = false := by
      have := h 0 (by simp)
      simpa using this
    have hstep : splitMSHGo acc (c :: (cs ++ rest)) = splitMSHGo (c :: acc) (cs ++ rest) := by
      rw [splitMSHGo, h0]
      simp
    rw [List.cons_append, hstep,
      ih (c :: acc) rest (by simp) (fun i hi => by simpa using h (i + 1) (by simpa using hi))]
    simp

/-- Flattening messages that carry `MSH|` only at their very start splits
back into exactly those messages. -/
theorem splitMSH_flatten (msgs : List Str)
    (h : ∀ m ∈ msgs, isPrefixList mshHeader m = true ∧
      ∀ i, i < m.length → 0 < i → isPrefixList mshHeader (m.drop i) = false) :
    splitMSH msgs.flatten = if msgs.isEmpty then [[]] else msgs := by
  induction msgs with
  | nil => rfl
  | cons m ms ih =>
    obtain ⟨hm, hint⟩ := h m (by simp)
    obtain ⟨t, rfl⟩ := exists_of_msh hm
    have hrest : ms.flatten = [] ∨ isPrefixList mshHeader ms.flatten = true := by
      cases ms with
      | nil => exact Or.inl rfl
      | cons m' ms' =>
        right
        obtain ⟨t', he⟩ := exists_of_msh (h m' (by simp)).1
        rw [List.flatten_cons, he]
        exact ipl_self_append mshHeader _
    have hspan : ∀ i, i < ('S' :: 'H' :: '|' :: t).length →
        isPrefixList mshHeader (('S' :: 'H' :: '|' :: t).drop i ++ ms.flatten) = false := by
      intro i hi
      have hi' : i + 1 < ('M' :: 'S' :: 'H' :: '|' :: t).length := by simpa using hi
      have hdne : ('M' :: 'S' :: 'H' :: '|' :: t).drop (i + 1) ≠ [] := by
        intro hcon
        rw [List.drop_eq_nil_iff] at hcon
        omega
      have hdrop := hint (i + 1) hi' (Nat.succ_pos i)
      have : ('M' :: 'S' :: 'H' :: '|' :: t).drop (i + 1) = ('S' :: 'H' :: '|' :: t).drop i := rfl
      rw [this] at hdne hdrop
      exact msh_not_prefix_append hdne hdrop hrest
    have hstart : splitMSH (('M' :: 'S' :: 'H' :: '|' :: t) :: ms).flatten =
        splitMSHGo ['M'] (('S' :: 'H' :: '|' :: t) ++ ms.flatten) := by
      rw [List.flatten_cons, splitMSH]
      show splitMSHGo [] ('M' :: (('S' :: 'H' :: '|' :: t) ++ ms.flatten)) = _
      rw [splitMSHGo]
      simp
    rw [hstart, splitMSHGo_through _ ['M'] ms.flatten (by simp) hspan]
    have hacc : ('S' :: 'H' :: '|' :: t).reverse ++ ['M'] =
        ('M' :: 'S' :: 'H' :: '|' :: t).reverse := by simp
    rw [hacc]
    cases ms with
    | nil =>
      show splitMSHGo (('M' :: 'S' :: 'H' :: '|' :: t).reverse) [] = _
      rw [splitMSHGo]
      simp
    | cons m' ms' =>
      obtain ⟨t', he⟩ := exists_of_msh (h m' (by simp)).1
      have hflat : (m' :: ms').flatten = 'M' :: 'S' :: 'H' :: '|' :: (t' ++ ms'.flatten) := by
        rw [List.flatten_cons, he]
        rfl
      rw [hflat, splitMSHGo]
      have hcut : (isPrefixList mshHeader
          ('M' :: 'S' :: 'H' :: '|' :: (t' ++ ms'.flatten)) &&
          !(('M' :: 'S' :: 'H' :: '|' :: t).reverse).isEmpty) = true := by
        simp [mshHeader, isPrefixList]
      rw [hcut]
      simp only [List.reverse_reverse, if_true]
      have hrec : splitMSH (m' :: ms').flatten =
          splitMSHGo ['M'] ('S' :: 'H' :: '|' :: (t' ++ ms'.flatten)) := by
        rw [hflat, splitMSH]
        show splitMSHGo [] ('M' :: ('S' :: 'H' :: '|' :: (t' ++ ms'.flatten))) = _
        rw [splitMSHGo]
        simp
      rw [← hrec, ih (fun x hx => h x (by simp [hx]))]
      simp

/-- Trimming preserves the `MSH|` front. -/
theorem dropWhile_append_not {p : Char → Bool} {a : Char} (l1 l2 : Str) (ha : p a = false) :
    (l1 ++ a :: l2).dropWhile p = l1.dropWhile p ++ a :: l2 := by
  induction l1 with
  | nil => simp [List.dropWhile, ha]
  | cons x xs ih =>
    by_cases hx : p x
    · simp [List.dropWhile, hx, ih]
    · simp [List.dropWhile, hx]

theorem trim_msh {m : Str} (h : isPrefixList mshHeader m = true) :
    isPrefixList mshHeader (trimList m) = true := by
  obtain ⟨t, rfl⟩ := exists_of_msh h
  have hleft : ('M' :: 'S' :: 'H' :: '|' :: t).dropWhile isWS = 'M' :: 'S' :: 'H' :: '|' :: t := by
    simp [List.dropWhile, isWS]
  rw [trimList, hleft]
  have hrev : ('M' :: 'S' :: 'H' :: '|' :: t).reverse = t.reverse ++ '|' :: ['H', 'S', 'M'] := by
    simp
  rw [hrev, dropWhile_append_not _ _ (by simp [isWS])]
  rw [List.reverse_append]
  simp only [List.reverse_cons]
  have : (['H', 'S', 'M'] : Str).reverse ++ ['|'] ++ (t.reverse.dropWhile isWS).reverse =
      mshHeader ++ (t.reverse.dropWhile isWS).reverse := rfl
  simpa [this] using ipl_self_append mshHeader ((t.reverse.dropWhile isWS).reverse)

/-! ## Claim C5 -/

/-- C5 (counterexample): a file formed by concatenating N = 1 text
beginning with `MSH|` (but containing a second `MSH|` inside a segment
body) is split into 2 chunks, not 1. -/
theorem c5_counterexample :
    isPrefixList mshHeader c5Cex = true ∧
    (splitHL7Batch (List.flatten [c5Cex])).length = 2 := by decide

/-- C5 (amended): for a file formed by concatenating N messages, each
beginning with `MSH|` and containing no other occurrence of `MSH|`, the
batch splitter returns exactly the N messages (trimmed), each chunk
begins with `MSH|`, each chunk parses, and — for any input whatsoever —
every returned chunk begins with `MSH|` (other chunks are discarded). -/
theorem c5_batch_split (msgs : List Str)
    (h : ∀ m ∈ msgs, isPrefixList mshHeader m = true ∧
      ∀ i, i < m.length → 0 < i → isPrefixList mshHeader (m.drop i) = false) :
    splitHL7Batch msgs.flatten = msgs.map trimList ∧
    (splitHL7Batch msgs.flatten).length = msgs.length ∧
    (∀ chunk ∈ splitHL7Batch msgs.flatten,
      isPrefixList mshHeader chunk = true ∧ (parseHL7 chunk).raw = chunk) ∧
    (∀ text : Str, ∀ chunk ∈ splitHL7Batch text, isPrefixList mshHeader chunk = true) := by
  have hdiscard : ∀ text : Str, ∀ chunk ∈ splitHL7Batch text,
      isPrefixList mshHeader chunk = true := by
    intro text chunk hc
    rw [splitHL7Batch, List.mem_filter] at hc
    have := hc.2
    rw [Bool.and_eq_true] at this
    exact this.2
  have hmain : splitHL7Batch msgs.flatten = msgs.map trimList := by
    rw [splitHL7Batch, splitMSH_flatten msgs h]
    cases msgs with
    | nil => rfl
    | cons m ms =>
      rw [if_neg (by simp)]
      apply List.filter_eq_self.mpr
      intro chunk hc
      rw [List.mem_map] at hc
      obtain ⟨x, hx, rfl⟩ := hc
      have hmsh := trim_msh (h x hx).1
      obtain ⟨t, he⟩ := exists_of_msh hmsh
      rw [Bool.and_eq_true, hmsh, he]
      simp
  have hraw : ∀ rawText : Str, (parseHL7 rawText).raw = rawText := by
    intro rawText
    cases hf : (((splitPred isCRLF rawText).filter (fun s => !(trimList s).isEmpty)).map
        (splitPred pipeP)).find? (fun f => segTag f == tagMSH) <;>
      simp [parseHL7, hf]
  refine ⟨hmain, by rw [hmain]; simp, ?_, hdiscard⟩
  intro chunk hc
  exact ⟨hdiscard _ chunk hc, hraw chunk⟩

/-- C5 (witness): the amended theorem applied to two concrete
concatenated messages. -/
theorem c5_witness : (splitHL7Batch (List.flatten c5WitnessMsgs)).length = 2 := by
  have h := (c5_batch_split c5WitnessMsgs (by decide)).2.1
  simpa using h

/-! ## Claim C3 -/

/-- C3: evaluating the watcher on the trace that re-delivers the
file-added notification for path 1 while path 1 is already queued (and
path 0 is in flight).  After five events path 1 sits in the debounce map
and in the processing queue at once, and by the end of the trace the
processing callback has been started twice for path 1 — the re-delivery
produced a second processing attempt. -/
theorem c3_duplicate_processing :
    (1 ∈ (runWatcher watchEnvAllOk (c3Trace.take 5)).pending ∧
      ((runWatcher watchEnvAllOk (c3Trace.take 5)).queue.filter
        (fun e => e.filePath == 1)).length = 1) ∧
    ((runWatcher watchEnvAllOk c3Trace).started.filter
      (fun e => e.filePath == 1)).length = 2 := by decide

/-! ## Watcher invariants (claim C6) -/

theorem timeLE_trans : ∀ a b c : WFileEvent, timeLE a b → timeLE b c → timeLE a c := by
  intro a b c hab hbc
  simp only [timeLE, decide_eq_true_eq] at *
  omega

theorem timeLE_total : ∀ a b : WFileEvent, timeLE a b || timeLE b a := by
  intro a b
  simp only [timeLE]
  by_cases h : a.createdAt ≤ b.createdAt
  · simp [h]
  · simp [Nat.le_of_lt (Nat.lt_of_not_le h)]

theorem mem_insertByTime {e x : WFileEvent} {l : List WFileEvent} :
    x ∈ insertByTime e l ↔ x = e ∨ x ∈ l := by
  induction l with
  | nil => simp [insertByTime]
  | cons y ys ih =>
    unfold insertByTime
    split
    · simp only [List.mem_cons]
    · simp only [List.mem_cons, ih]
      tauto

theorem insertByTime_sorted (e : WFileEvent) (l : List WFileEvent) (h : queueSorted l) :
    queueSorted (insertByTime e l) := by
  induction l with
  | nil => simp [insertByTime, queueSorted]
  | cons x xs ih =>
    unfold insertByTime
    split
    case isTrue hle =>
      refine List.Pairwise.cons ?_ h
      intro y hy
      rcases List.mem_cons.mp hy with rfl | hy
      · exact hle
      · exact timeLE_trans e x y hle ((List.pairwise_cons.mp h).1 y hy)
    case isFalse hnle =>
      have hxe : timeLE x e = true := by
        have ht := timeLE_total x e
        rw [Bool.or_eq_true] at ht
        tauto
      refine List.Pairwise.cons ?_ (ih (List.pairwise_cons.mp h).2)
      intro y hy
      rcases mem_insertByTime.mp hy with rfl | hy
      · exact hxe
      · exact (List.pairwise_cons.mp h).1 y hy

theorem sortQueue_sorted (q : List WFileEvent) : queueSorted (sortQueue q) := by
  induction q with
  | nil => simp [sortQueue, queueSorted]
  | cons x xs ih => exact insertByTime_sorted x _ ih

theorem started_append_ne (l : List WFileEvent) (e : WFileEvent) : l ≠ l ++ [e] := by
  intro h
  have := congrArg List.length h
  simp at this

theorem processNext_queueSorted (s : WatcherState) (h : queueSorted s.queue) :
    queueSorted (processNext s).queue := by
  unfold processNext
  cases s.inFlight with
  | some e => exact h
  | none =>
    cases hq : s.queue with
    | nil => simpa [hq] using h
    | cons e rest =>
      rw [hq] at h
      exact h.of_cons

theorem validateAndQueueFile_queueSorted (env : WatchEnv) (p : Nat) (s : WatcherState)
    (h : queueSorted s.queue) : queueSorted (validateAndQueueFile env p s).queue := by
  unfold validateAndQueueFile
  split
  · exact h
  · split
    · exact h
    · split
      · exact h
      · exact processNext_queueSorted _ (sortQueue_sorted _)

theorem stepWatcher_queueSorted (env : WatchEnv) (s : WatcherState) (ev : WEvent)
    (h : queueSorted s.queue) : queueSorted (stepWatcher env s ev).queue := by
  cases ev with
  | fileAdded p =>
    show queueSorted (onFileAdded env p s).queue
    unfold onFileAdded
    split
    · exact h
    · split <;> exact h
  | debounceFire p =>
    show queueSorted (if p ∈ s.pending then _ else s).queue
    split
    · exact validateAndQueueFile_queueSorted env p _ h
    · exact h
  | revalidateFire p =>
    show queueSorted (if p ∈ s.revalidate then _ else s).queue
    split
    · exact validateAndQueueFile_queueSorted env p _ h
    · exact h
  | complete ok =>
    show queueSorted (stepWatcher env s (.complete ok)).queue
    unfold stepWatcher
    cases s.inFlight with
    | none => exact h
    | some e => exact processNext_queueSorted _ h

theorem runWatcher_queueSorted (env : WatchEnv) (evs : List WEvent) :
    queueSorted (runWatcher env evs).queue := by
  suffices hgen : ∀ (evs : List WEvent) (s : WatcherState), queueSorted s.queue →
      queueSorted (evs.foldl (stepWatcher env) s).queue by
    exact hgen evs initWatcher (by simp [initWatcher, queueSorted])
  intro evs
  induction evs with
  | nil => intro s h; exact h
  | cons ev evs ih =>
    intro s h
    exact ih _ (stepWatcher_queueSorted env s ev h)

/-- Case analysis of `processNext`. -/
theorem processNext_cases (s : WatcherState) :
    processNext s = s ∨
    ∃ e0 rest, s.inFlight = none ∧ s.queue = e0 :: rest ∧
      processNext s = { s with
        queue := rest
        inFlight := some e0
        processed := insertPath s.processed e0.filePath
        started := s.started ++ [e0] } := by
  unfold processNext
  cases hf : s.inFlight with
  | some f => exact Or.inl rfl
  | none =>
    cases hq : s.queue with
    | nil => exact Or.inl rfl
    | cons e0 rest => exact Or.inr ⟨e0, rest, rfl, rfl, rfl⟩

theorem processNext_handed (s : WatcherState) (e : WFileEvent) (h : queueSorted s.queue)
    (hst : (processNext s).started = s.started ++ [e]) :
    (processNext s).inFlight = some e ∧
    ∀ e' ∈ (processNext s).queue, timeLE e e' = true := by
  rcases processNext_cases s with hc | ⟨e0, rest, -, hq, hc⟩
  · rw [hc] at hst
    exact absurd hst (started_append_ne _ _)
  · rw [hc] at hst ⊢
    have he : e0 = e := by
      have h2 := List.append_cancel_left hst
      injection h2
    subst he
    rw [hq] at h
    exact ⟨rfl, fun e' he' => (List.pairwise_cons.mp h).1 e' he'⟩

/-- Case analysis of `validateAndQueueFile`. -/
theorem validateAndQueueFile_cases (env : WatchEnv) (p : Nat) (s : WatcherState) :
    validateAndQueueFile env p s = s ∨
    validateAndQueueFile env p s = { s with revalidate := s.revalidate ++ [p] } ∨
    validateAndQueueFile env p s =
      processNext { s with queue := sortQueue (s.queue ++ [⟨p, env.birth p⟩]) } := by
  unfold validateAndQueueFile
  split
  · exact Or.inl rfl
  split
  · exact Or.inl rfl
  split
  · exact Or.inr (Or.inl rfl)
  · exact Or.inr (Or.inr rfl)

theorem validateAndQueueFile_handed (env : WatchEnv) (p : Nat) (s : WatcherState)
    (e : WFileEvent)
    (hst : (validateAndQueueFile env p s).started = s.started ++ [e]) :
    (validateAndQueueFile env p s).inFlight = some e ∧
    ∀ e' ∈ (validateAndQueueFile env p s).queue, timeLE e e' = true := by
  rcases validateAndQueueFile_cases env p s with hc | hc | hc <;> rw [hc] at hst ⊢
  · exact absurd hst (started_append_ne _ _)
  · exact absurd hst (started_append_ne _ _)
  · exact processNext_handed _ e (sortQueue_sorted _) hst

/-- When a step of the watcher hands a file to the processing callback,
that file fills the in-flight slot and its creation time is at most that
of everything still queued. -/
theorem stepWatcher_handed (env : WatchEnv) (s : WatcherState) (ev : WEvent) (e : WFileEvent)
    (h : queueSorted s.queue)
    (hst : (stepWatcher env s ev).started = s.started ++ [e]) :
    (stepWatcher env s ev).inFlight = some e ∧
    ∀ e' ∈ (stepWatcher env s ev).queue, timeLE e e' = true := by
  cases ev with
  | fileAdded p =>
    have hs : (stepWatcher env s (.fileAdded p)).started = s.started := by
      show (onFileAdded env p s).started = s.started
      unfold onFileAdded
      split
      · rfl
      · split <;> rfl
    rw [hs] at hst
    exact absurd hst (started_append_ne _ _)
  | debounceFire p =>
    by_cases hp : p ∈ s.pending
    · have heq : stepWatcher env s (.debounceFire p) =
          validateAndQueueFile env p { s with pending := s.pending.erase p } := by
        show (if p ∈ s.pending then _ else s) = _
        rw [if_pos hp]
      rw [heq] at hst ⊢
      exact validateAndQueueFile_handed env p _ e hst
    · have heq : stepWatcher env s (.debounceFire p) = s := by
        show (if p ∈ s.pending then _ else s) = s
        rw [if_neg hp]
      rw [heq] at hst
      exact absurd hst (started_append_ne _ _)
  | revalidateFire p =>
    by_cases hp : p ∈ s.revalidate
    · have heq : stepWatcher env s (.revalidateFire p) =
          validateAndQueueFile env p { s with revalidate := s.revalidate.erase p } := by
        show (if p ∈ s.revalidate then _ else s) = _
        rw [if_pos hp]
      rw [heq] at hst ⊢
      exact validateAndQueueFile_handed env p _ e hst
    · have heq : stepWatcher env s (.revalidateFire p) = s := by
        show (if p ∈ s.revalidate then _ else s) = s
        rw [if_neg hp]
      rw [heq] at hst
      exact absurd hst (started_append_ne _ _)
  | complete ok =>
    cases hf : s.inFlight with
    | none =>
      have heq : stepWatcher env s (.complete ok) = s := by
        show (match s.inFlight with | none => s | some e => _) = s
        rw [hf]
      rw [heq] at hst
      exact absurd hst (started_append_ne _ _)
    | some f =>
      have heq : stepWatcher env s (.complete ok) =
          processNext { s with
            inFlight := none
            processed := if ok then s.processed else s.processed.erase f.filePath } := by
        show (match s.inFlight with | none => s | some e => _) = _
        rw [hf]
      rw [heq] at hst ⊢
      exact processNext_handed _ e h hst

theorem processNext_started_le (s : WatcherState) :
    (processNext s).started.length ≤ s.started.length + 1 := by
  rcases processNext_cases s with hc | ⟨e0, rest, -, -, hc⟩ <;> rw [hc] <;> simp

/-- Each step of the watcher starts at most one processing callback. -/
theorem stepWatcher_started_le (env : WatchEnv) (s : WatcherState) (ev : WEvent) :
    (stepWatcher env s ev).started.length ≤ s.started.length + 1 := by
  cases ev with
  | fileAdded p =>
    show (onFileAdded env p s).started.length ≤ _
    unfold onFileAdded
    split
    · simp
    · split <;> simp
  | debounceFire p =>
    show (if p ∈ s.pending then _ else s).started.length ≤ _
    split
    · rcases validateAndQueueFile_cases env p _ with hc | hc | hc <;> rw [hc]
      · simp
      · simp
      · exact processNext_started_le _
    · simp
  | revalidateFire p =>
    show (if p ∈ s.revalidate then _ else s).started.length ≤ _
    split
    · rcases validateAndQueueFile_cases env p _ with hc | hc | hc <;> rw [hc]
      · simp
      · simp
      · exact processNext_started_le _
    · simp
  | complete ok =>
    show (match s.inFlight with | none => s | some e => _).started.length ≤ _
    cases hf : s.inFlight with
    | none => simp
    | some f => exact processNext_started_le _

/-- While a file is in flight, no event other than its completion starts
another processing callback. -/
theorem processNext_busy_started (x : WatcherState) (hb : x.inFlight.isSome = true) :
    (processNext x).started = x.started := by
  rcases processNext_cases x with hcx | ⟨e0, rest, hnone, -, -⟩
  · rw [hcx]
  · rw [hnone] at hb
    simp at hb

theorem stepWatcher_busy_no_start (env : WatchEnv) (s : WatcherState) (ev : WEvent)
    (hb : s.inFlight.isSome = true) (hc : ∀ b, ev ≠ WEvent.complete b) :
    (stepWatcher env s ev).started = s.started := by
  cases ev with
  | fileAdded p =>
    show (onFileAdded env p s).started = s.started
    unfold onFileAdded
    split
    · rfl
    · split <;> rfl
  | debounceFire p =>
    show (if p ∈ s.pending then _ else s).started = s.started
    split
    · rcases validateAndQueueFile_cases env p _ with hcv | hcv | hcv <;> rw [hcv] <;>
        exact processNext_busy_started _ hb
    · rfl
  | revalidateFire p =>
    show (if p ∈ s.revalidate then _ else s).started = s.started
    split
    · rcases validateAndQueueFile_cases env p _ with hcv | hcv | hcv <;> rw [hcv] <;>
        exact processNext_busy_started _ hb
    · rfl
  | complete b => exact absurd rfl (hc b)

/-! ## Claim C6 -/

/-- C6: at every reachable watcher state the in-memory queue is sorted by
file creation time ascending; whenever a step hands a file to the
orchestrator's callback, that file fills the single in-flight slot and is
the oldest of the queued files; a step starts at most one callback; and
while a file is in flight only its completion can make another hand-off
happen — regardless of the order in which filesystem notifications
arrived. -/
theorem c6_queue_order (env : WatchEnv) (evs : List WEvent) :
    queueSorted (runWatcher env evs).queue ∧
    (∀ (ev : WEvent) (e : WFileEvent),
      (stepWatcher env (runWatcher env evs) ev).started = (runWatcher env evs).started ++ [e] →
      (stepWatcher env (runWatcher env evs) ev).inFlight = some e ∧
      ∀ e' ∈ (stepWatcher env (runWatcher env evs) ev).queue, timeLE e e' = true) ∧
    (∀ ev : WEvent, (stepWatcher env (runWatcher env evs) ev).started.length ≤
      (runWatcher env evs).started.length + 1) ∧
    (∀ ev : WEvent, (runWatcher env evs).inFlight.isSome = true →
      (∀ b, ev ≠ WEvent.complete b) →
      (stepWatcher env (runWatcher env evs) ev).started = (runWatcher env evs).started) := by
  refine ⟨runWatcher_queueSorted env evs, ?_, ?_, ?_⟩
  · intro ev e hst
    exact stepWatcher_handed env _ ev e (runWatcher_queueSorted env evs) hst
  · intro ev
    exact stepWatcher_started_le env _ ev
  · intro ev hb hc
    exact stepWatcher_busy_no_start env _ ev hb hc

/-! ## Split/join lemmas for the generator round-trip -/

theorem splitPred_no_sep {p : Char → Bool} {s : Str} (h : ∀ ch ∈ s, p ch = false) :
    splitPred p s = [s] := by
  induction s with
  | nil => rfl
  | cons c cs ih =>
    rw [splitPred, h c (by simp), ih (fun ch hch => h ch (by simp [hch]))]
    simp

theorem splitPred_append_sep {p : Char → Bool} {c : Char} (hc : p c = true) {a : Str} (t : Str)
    (ha : ∀ ch ∈ a, p ch = false) :
    splitPred p (a ++ c :: t) = a :: splitPred p t := by
  induction a with
  | nil =>
    show splitPred p (c :: t) = [] :: splitPred p t
    rw [splitPred, hc]
    simp
  | cons x xs ih =>
    rw [List.cons_append, splitPred, ha x (by simp),
      ih (fun ch hch => ha ch (by simp [hch]))]
    simp

theorem intercalate_single (sep x : Str) : List.intercalate sep [x] = x := by
  simp [List.intercalate]

theorem intercalate_two (sep x y : Str) (zs : List Str) :
    List.intercalate sep (x :: y :: zs) = x ++ sep ++ List.intercalate sep (y :: zs) := by
  simp [List.intercalate, List.intersperse_cons₂]

theorem splitPred_intercalate {p : Char → Bool} {c : Char} (hc : p c = true) (parts : List Str)
    (h : ∀ s ∈ parts, ∀ ch ∈ s, p ch = false) (hne : parts ≠ []) :
    splitPred p (List.intercalate [c] parts) = parts := by
  induction parts with
  | nil => exact absurd rfl hne
  | cons x xs ih =>
    cases xs with
    | nil =>
      rw [intercalate_single]
      exact splitPred_no_sep (h x (by simp))
    | cons y ys =>
      rw [intercalate_two, List.append_assoc, List.singleton_append,
        splitPred_append_sep hc _ (h x (by simp)),
        ih (fun s hs => h s (by simp [hs])) (by simp)]

theorem mem_intercalate_single {c : Char} {parts : List Str} {ch : Char}
    (h : ch ∈ List.intercalate [c] parts) : ch = c ∨ ∃ s ∈ parts, ch ∈ s := by
  induction parts with
  | nil => simp [List.intercalate] at h
  | cons x xs ih =>
    cases xs with
    | nil =>
      rw [intercalate_single] at h
      exact Or.inr ⟨x, by simp, h⟩
    | cons y ys =>
      rw [intercalate_two, List.append_assoc, List.singleton_append, List.mem_append] at h
      rcases h with h | h
      · exact Or.inr ⟨x, by simp, h⟩
      · rcases List.mem_cons.mp h with rfl | h
        · exact Or.inl rfl
        · rcases ih h with rfl | ⟨s, hs, hchs⟩
          · exact Or.inl rfl
          · exact Or.inr ⟨s, by simp [hs], hchs⟩

theorem filter_map_none {α β : Type} (p : β → Bool) (f : α → β) (l : List α)
    (h : ∀ x ∈ l, p (f x) = false) : (l.map f).filter p = [] := by
  induction l with
  | nil => rfl
  | cons x xs ih =>
    rw [List.map_cons, List.filter_cons, h x (by simp)]
    simpa using ih (fun y hy => h y (by simp [hy]))

theorem filter_map_all {α β : Type} (p : β → Bool) (f : α → β) (l : List α)
    (h : ∀ x ∈ l, p (f x) = true) : (l.map f).filter p = l.map f := by
  induction l with
  | nil => rfl
  | cons x xs ih =>
    rw [List.map_cons, List.filter_cons, h x (by simp)]
    simpa using ih (fun y hy => h y (by simp [hy]))

theorem filterMap_map_none {α β γ : Type} (g : β → Option γ) (f : α → β) (l : List α)
    (h : ∀ x ∈ l, g (f x) = none) : (l.map f).filterMap g = [] := by
  induction l with
  | nil => rfl
  | cons x xs ih =>
    rw [List.map_cons, List.filterMap_cons, h x (by simp)]
    exact ih (fun y hy => h y (by simp [hy]))

/-- The `genSegments` filters at the three tags used by the
projections. -/
theorem filter_tag_genSegments (gp : GenParams) (claim : ExportClaim)
    (clinic : ExportClinicInfo) :
    (genSegments gp claim clinic).filter (fun f => segTag f == tagPID) = [pidFields gp claim] ∧
    (genSegments gp claim clinic).filter (fun f => segTag f == tagFT1) =
      claim.billingCodes.enum.map (fun ic => ft1Fields gp claim clinic ic.1 ic.2) ∧
    (genSegments gp claim clinic).filter (fun f => segTag f == tagDG1) =
      claim.diagnosisCodes.enum.map (fun ic => dg1Fields ic.1 ic.2) := by
  refine ⟨?_, ?_, ?_⟩
  · rw [genSegments, List.filter_append, List.filter_append,
      filter_map_none _ _ _ (fun x _ => rfl), filter_map_none _ _ _ (fun x _ => rfl)]
    rfl
  · rw [genSegments, List.filter_append, List.filter_append,
      filter_map_all _ _ _ (fun x _ => rfl), filter_map_none _ _ _ (fun x _ => rfl)]
    rw [show (([mshFields gp clinic, evnFields gp, pidFields gp claim, pv1Fields claim,
      in1Fields claim]).filter (fun f => segTag f == tagFT1)) = [] from rfl]
    simp
  · rw [genSegments, List.filter_append, List.filter_append,
      filter_map_none _ _ _ (fun x _ => rfl), filter_map_all _ _ _ (fun x _ => rfl)]
    rw [show (([mshFields gp clinic, evnFields gp, pidFields gp claim, pv1Fields claim,
      in1Fields claim]).filter (fun f => segTag f == tagDG1)) = [] from rfl]
    simp

theorem mem_dropWhile_of_not {p : Char → Bool} {x : Char} {s : Str}
    (hx : x ∈ s) (hpx : p x = false) : x ∈ s.dropWhile p := by
  induction s with
  | nil => simp at hx
  | cons a t ih =>
    rw [List.dropWhile_cons]
    split
    case isTrue ha =>
      rcases List.mem_cons.mp hx with rfl | hx'
      · rw [ha] at hpx
        exact absurd hpx (by simp)
      · exact ih hx'
    case isFalse ha => exact hx

theorem trimList_ne_nil {s : Str} {x : Char} (hx : x ∈ s) (hpx : isWS x = false) :
    trimList s ≠ [] := by
  intro hcon
  rw [trimList, List.reverse_eq_nil_iff, List.dropWhile_eq_nil_iff] at hcon
  have h1 : x ∈ s.dropWhile isWS := mem_dropWhile_of_not hx hpx
  have h2 : x ∈ (s.dropWhile isWS).reverse := by simpa using h1
  have := hcon x h2
  rw [hpx] at this
  exact absurd this (by simp)

theorem parseHL7_segs (raw : Str) :
    (parseHL7 raw).segs =
      ((splitPred isCRLF raw).filter (fun s => !(trimList s).isEmpty)).map (splitPred pipeP) := by
  cases h : (((splitPred isCRLF raw).filter (fun s => !(trimList s).isEmpty)).map
      (splitPred pipeP)).find? (fun f => segTag f == tagMSH) <;>
    simp [parseHL7, h]

/-- Every generated segment is tag-fronted with a non-whitespace first
character. -/
theorem genSegments_shape (gp : GenParams) (claim : ExportClaim) (clinic : ExportClinicInfo) :
    ∀ f ∈ genSegments gp claim clinic,
      ∃ ch t rest, f = (ch :: t) :: rest ∧ isWS ch = false := by
  intro f hf
  rw [genSegments, List.mem_append, List.mem_append] at hf
  rcases hf with (hf | hf) | hf
  · simp only [List.mem_cons, List.not_mem_nil, or_false] at hf
    rcases hf with rfl | rfl | rfl | rfl | rfl
    · exact ⟨'M', _, _, rfl, rfl⟩
    · exact ⟨'E', _, _, rfl, rfl⟩
    · exact ⟨'P', _, _, rfl, rfl⟩
    · exact ⟨'P', _, _, rfl, rfl⟩
    · exact ⟨'I', _, _, rfl, rfl⟩
  · rw [List.mem_map] at hf
    obtain ⟨ic, -, rfl⟩ := hf
    exact ⟨'F', _, _, rfl, rfl⟩
  · rw [List.mem_map] at hf
    obtain ⟨ic, -, rfl⟩ := hf
    exact ⟨'D', _, _, rfl, rfl⟩

/-- Parsing the generated message recovers exactly the generated segment
field lists, provided no field carries a pipe or CR/LF character. -/
theorem generate_parse_segs (gp : GenParams) (claim : ExportClaim) (clinic : ExportClinicInfo)
    (hF : ∀ f ∈ genSegments gp claim clinic, ∀ fld ∈ f, ∀ ch ∈ fld,
      pipeP ch = false ∧ isCRLF ch = false) :
    (parseHL7 (generateDFTP03 gp claim clinic)).segs = genSegments gp claim clinic := by
  have hlineschars : ∀ line ∈ (genSegments gp claim clinic).map (List.intercalate ['|']),
      ∀ ch ∈ line, isCRLF ch = false := by
    intro line hline ch hch
    rw [List.mem_map] at hline
    obtain ⟨f, hf, rfl⟩ := hline
    rcases mem_intercalate_single hch with rfl | ⟨fld, hfld, hchf⟩
    · rfl
    · exact (hF f hf fld hfld ch hchf).2
  have hlines : splitPred isCRLF (generateDFTP03 gp claim clinic) =
      (genSegments gp claim clinic).map (List.intercalate ['|']) := by
    rw [generateDFTP03]
    exact splitPred_intercalate rfl _ hlineschars (by simp [genSegments])
  have hkeepall : ((genSegments gp claim clinic).map (List.intercalate ['|'])).filter
      (fun s => !(trimList s).isEmpty) =
      (genSegments gp claim clinic).map (List.intercalate ['|']) := by
    apply List.filter_eq_self.mpr
    intro line hline
    rw [List.mem_map] at hline
    obtain ⟨f, hf, rfl⟩ := hline
    obtain ⟨ch, t, rest, rfl, hws⟩ := genSegments_shape gp claim clinic f hf
    have hmem : ch ∈ List.intercalate ['|'] ((ch :: t) :: rest) := by
      cases rest with
      | nil => rw [intercalate_single]; simp
      | cons r rs => rw [intercalate_two]; simp
    simpa using trimList_ne_nil hmem hws
  rw [parseHL7_segs, hlines, hkeepall, List.map_map]
  have hid : ∀ f ∈ genSegments gp claim clinic,
      (splitPred pipeP ∘ List.intercalate ['|']) f = f := by
    intro f hf
    apply splitPred_intercalate rfl
    · intro fld hfld ch hch
      exact (hF f hf fld hfld ch hch).1
    · obtain ⟨ch, t, rest, rfl, -⟩ := genSegments_shape gp claim clinic f hf
      simp
  rw [List.map_congr_left hid]
  exact List.map_id _

/-- C6 (witness): a concrete hand-off — after `fileAdded 0`, the
debounce expiry hands file 0 to the callback and fills the in-flight
slot with it. -/
theorem c6_witness :
    (stepWatcher watchEnvAllOk (runWatcher watchEnvAllOk [WEvent.fileAdded 0])
      (WEvent.debounceFire 0)).inFlight = some { filePath := 0, createdAt := 0 } :=
  ((c6_queue_order watchEnvAllOk [WEvent.fileAdded 0]).2.1 (WEvent.debounceFire 0)
    { filePath := 0, createdAt := 0 } (by decide)).1

/-! ## Claim C4 -/

set_option maxRecDepth 4000 in
/-- C4 (counterexample): re-parsing the generated output of a concrete
claim with one billing code yields an empty CPT-line list — the
generator writes the procedure code to `FT1` field 25 while the parser
reads field 7 — so the generated output does not reproduce the input's
ordered CPT-line list. -/
theorem c4_counterexample :
    (parseEncounterFromDFT (parseHL7 (generateDFTP03 c4Gp c4Claim c4Clinic))).map
      ParsedEncounter.cptLines = some [] ∧
    (parseEncounterFromDFT (parseHL7 (generateDFTP03 c4Gp c4Claim c4Clinic))).map
      ParsedEncounter.cptLines ≠ some (c4Claim.billingCodes.map claimedCPTLine) := by decide

/-- C4 (amended): for every export claim whose generated fields are free
of pipe/CR/LF characters (names and diagnosis codes additionally
caret-free, diagnosis codes non-empty), re-parsing the generated output
reproduces the patient name up to upper-casing and the diagnosis code
set exactly; the parsed CPT-line list however is empty — not the input's
ordered CPT lines — because the generator emits the procedure code in
`FT1` field 25, which the parser does not read. -/
theorem c4_roundtrip (gp : GenParams) (claim : ExportClaim) (clinic : ExportClinicInfo)
    (hF : ∀ f ∈ genSegments gp claim clinic, ∀ fld ∈ f, ∀ ch ∈ fld,
      pipeP ch = false ∧ isCRLF ch = false)
    (hLast : ∀ ch ∈ upperStr claim.patient.lastName, caretP ch = false)
    (hFirst : ∀ ch ∈ upperStr claim.patient.firstName, caretP ch = false)
    (hMiddle : ∀ ch ∈ upperStr claim.patient.middleName, caretP ch = false)
    (hDiag : ∀ d ∈ claim.diagnosisCodes, d ≠ [] ∧ ∀ ch ∈ d, caretP ch = false) :
    (parsePatientFromADT (parseHL7 (generateDFTP03 gp claim clinic))).map
      ParsedPatient.lastName = some (upperStr claim.patient.lastName) ∧
    (parsePatientFromADT (parseHL7 (generateDFTP03 gp claim clinic))).map
      ParsedPatient.firstName = some (upperStr claim.patient.firstName) ∧
    (parsePatientFromADT (parseHL7 (generateDFTP03 gp claim clinic))).map
      ParsedPatient.middleName = some (upperStr claim.patient.middleName) ∧
    (parseEncounterFromDFT (parseHL7 (generateDFTP03 gp claim clinic))).map
      ParsedEncounter.cptLines = some [] ∧
    (parseEncounterFromDFT (parseHL7 (generateDFTP03 gp claim clinic))).elim False
      (fun e => e.icdCodes.Nodup ∧ ∀ c, c ∈ e.icdCodes ↔ c ∈ claim.diagnosisCodes) := by
  have hsegs : (parseHL7 (generateDFTP03 gp claim clinic)).segs = genSegments gp claim clinic :=
    generate_parse_segs gp claim clinic hF
  obtain ⟨hfPID, hfFT1, hfDG1⟩ := filter_tag_genSegments gp claim clinic
  have hsPID : segsOfTag (parseHL7 (generateDFTP03 gp claim clinic)) tagPID =
      [pidFields gp claim] := by
    rw [segsOfTag, hsegs]
    exact hfPID
  have hsFT1 : segsOfTag (parseHL7 (generateDFTP03 gp claim clinic)) tagFT1 =
      claim.billingCodes.enum.map (fun ic => ft1Fields gp claim clinic ic.1 ic.2) := by
    rw [segsOfTag, hsegs]
    exact hfFT1
  have hsDG1 : segsOfTag (parseHL7 (generateDFTP03 gp claim clinic)) tagDG1 =
      claim.diagnosisCodes.enum.map (fun ic => dg1Fields ic.1 ic.2) := by
    rw [segsOfTag, hsegs]
    exact hfDG1
  have hfsPID : firstSeg (parseHL7 (generateDFTP03 gp claim clinic)) tagPID =
      some (pidFields gp claim) := by
    rw [firstSeg, hsPID]
    rfl
  have hname : splitPred caretP (genPatientName claim) =
      [upperStr claim.patient.lastName, upperStr claim.patient.firstName,
       upperStr claim.patient.middleName] := by
    rw [genPatientName, List.append_assoc, List.cons_append,
      splitPred_append_sep (c := '^') rfl _ hLast,
      splitPred_append_sep (c := '^') rfl _ hFirst, splitPred_no_sep hMiddle]
  have hpn : parseName (fieldAt (pidFields gp claim) 5) =
      { lastName := upperStr claim.patient.lastName
        firstName := upperStr claim.patient.firstName
        middleName := upperStr claim.patient.middleName } := by
    rw [show fieldAt (pidFields gp claim) 5 = genPatientName claim from rfl]
    unfold parseName
    rw [hname]
    rfl
  have hexists : ∃ enc, parseEncounterFromDFT (parseHL7 (generateDFTP03 gp claim clinic)) =
      some enc := by
    unfold parseEncounterFromDFT
    rw [hfsPID]
    exact ⟨_, rfl⟩
  obtain ⟨enc, henc⟩ := hexists
  obtain ⟨hicd, hcpt⟩ := parseEncounterFromDFT_proj henc
  have hcptnil : enc.cptLines = [] := by
    rw [hcpt, hsFT1]
    exact filterMap_map_none _ _ _ (fun ic _ => rfl)
  have hdgraw : dg1RawCodes (parseHL7 (generateDFTP03 gp claim clinic)) =
      claim.diagnosisCodes := by
    rw [dg1RawCodes, hsDG1, List.map_map]
    have hpt : ∀ ic ∈ claim.diagnosisCodes.enum,
        ((fun d => firstCaret (fieldAt d 3)) ∘ (fun ic => dg1Fields ic.1 ic.2)) ic = ic.2 := by
      intro ic hic
      have hmem2 : ic.2 ∈ claim.diagnosisCodes := by
        rw [← List.enum_map_snd claim.diagnosisCodes]
        exact List.mem_map_of_mem Prod.snd hic
      obtain ⟨hne, hcf⟩ := hDiag ic.2 hmem2
      show firstCaret (fieldAt (dg1Fields ic.1 ic.2) 3) = ic.2
      rw [show fieldAt (dg1Fields ic.1 ic.2) 3 = ic.2 ++ '^' :: ic.2 from rfl,
        firstCaret, splitPred_append_sep (c := '^') rfl _ hcf]
      rfl
    rw [List.map_congr_left hpt]
    exact List.enum_map_snd _
  have hftnil : ft1CptSegs (parseHL7 (generateDFTP03 gp claim clinic)) = [] := by
    rw [ft1CptSegs, hsFT1]
    exact filter_map_none _ _ _ (fun ic _ => rfl)
  have hicd2 : enc.icdCodes = icdFold [] claim.diagnosisCodes := by
    rw [hicd, hftnil, hdgraw]
    rfl
  have hpat : ∀ g : ParsedPatient → Str,
      (parsePatientFromADT (parseHL7 (generateDFTP03 gp claim clinic))).map g =
      some (g { externalId := firstCaret (fieldAt (pidFields gp claim) 3)
                firstName := upperStr claim.patient.firstName
                middleName := upperStr claim.patient.middleName
                lastName := upperStr claim.patient.lastName
                dob := formatDate (fieldAt (pidFields gp claim) 7)
                gender := fieldAt (pidFields gp claim) 8
                phone := formatPhone (fieldAt (pidFields gp claim) 13)
                email := []
                address := parseAddress (fieldAt (pidFields gp claim) 11)
                identifiers := { mrn := firstCaret (fieldAt (pidFields gp claim) 3)
                                 ssnLast4 := lastN 4 (fieldAt (pidFields gp claim) 19) }
                insurance := (segsOfTag (parseHL7 (generateDFTP03 gp claim clinic))
                  tagIN1).filterMap parseInsuranceFromIN1 }) := by
    intro g
    unfold parsePatientFromADT
    rw [hfsPID]
    dsimp only
    rw [hpn]
    rfl
  refine ⟨?_, ?_, ?_, ?_, ?_⟩
  · rw [hpat ParsedPatient.lastName]
  · rw [hpat ParsedPatient.firstName]
  · rw [hpat ParsedPatient.middleName]
  · rw [henc, Option.map_some', hcptnil]
  · rw [henc]
    show enc.icdCodes.Nodup ∧ ∀ c, c ∈ enc.icdCodes ↔ c ∈ claim.diagnosisCodes
    constructor
    · rw [hicd2]
      exact nodup_icdFold _ List.nodup_nil
    · intro c
      rw [hicd2, mem_icdFold]
      simp only [List.not_mem_nil, false_or]
      constructor
      · rintro ⟨hc, -⟩
        exact hc
      · intro hc
        exact ⟨hc, (hDiag c hc).1⟩

/-- C4 (witness): the amended round-trip applied to the concrete claim
`c4Claim` — the parsed last name is the upper-cased input last name. -/
theorem c4_witness :
    (parsePatientFromADT (parseHL7 (generateDFTP03 c4Gp c4Claim c4Clinic))).map
      ParsedPatient.lastName = some (['D', 'O', 'E']) := by
  have h := (c4_roundtrip c4Gp c4Claim c4Clinic (by decide) (by decide) (by decide) (by decide)
    (by decide)).1
  rw [h]
  decide

/-! ## Claim C7 -/

/-- Closed form of the per-claim export loop when every write
succeeds. -/
theorem exportClaimStep_foldl (env : ExpEnv) (gp : GenParams) (pat ts : Str)
    (clinic : ExportClinicInfo) (claims : List ExportClaim)
    (h : ∀ c ∈ claims, env.writeOk c.claimId = true) :
    ∀ ops res n m, claims.foldl (exportClaimStep env gp pat ts clinic) (ops, res, n, m) =
      (ops ++ claims.map (exportWriteOp gp pat ts clinic),
       res ++ claims.map (exportOkResult pat ts clinic), n + claims.length, m) := by
  induction claims with
  | nil =>
    intro ops res n m
    simp
  | cons c cs ih =>
    intro ops res n m
    rw [List.foldl_cons]
    have hstep : exportClaimStep env gp pat ts clinic (ops, res, n, m) c =
        (ops ++ [exportWriteOp gp pat ts clinic c], res ++ [exportOkResult pat ts clinic c],
         n + 1, m) := by
      rw [exportClaimStep, h c (by simp)]
      simp
    rw [hstep, ih (fun x hx => h x (by simp [hx]))]
    simp only [List.map_cons, List.length_cons, List.append_assoc, List.singleton_append,
      Prod.mk.injEq, and_true, true_and]
    omega

/-- C7: when every claim file is written successfully and the subsequent
confirm-export submission fails, the outcome's filesystem operations are
exactly the per-claim writes — nothing is deleted, renamed or modified —
the failure is surfaced as a distinct error activity item stating that
files were written locally, the exported count still reflects every
written claim, and the confirmation was attempted once with the fetch id
and the full result batch. -/
theorem c7_confirm_failure_keeps_files (env : ExpEnv) (gp : GenParams) (ts pat : Str)
    (claims : List ExportClaim) (clinic : ExportClinicInfo) (fid : Str)
    (hw : ∀ c ∈ claims, env.writeOk c.claimId = true)
    (hc : env.confirmOk = false) :
    (processExports env gp ts pat claims clinic (some fid)).ops =
      claims.map (exportWriteOp gp (if pat.isEmpty then defaultFileNamePattern else pat)
        ts clinic) ∧
    (∀ op ∈ (processExports env gp ts pat claims clinic (some fid)).ops,
      ∃ n content, op = FsOp.writeFile n content) ∧
    ExpActivity.mk ExpActType.error
        (ExpActMsg.confirmationFailedFilesWrittenLocal env.confirmErr) ∈
      (processExports env gp ts pat claims clinic (some fid)).activity ∧
    (processExports env gp ts pat claims clinic (some fid)).exportedDelta = claims.length ∧
    (processExports env gp ts pat claims clinic (some fid)).confirmCalled =
      some (fid, (processExports env gp ts pat claims clinic (some fid)).results) := by
  have hfold := exportClaimStep_foldl env gp
    (if pat.isEmpty then defaultFileNamePattern else pat) ts clinic claims hw [] [] 0 0
  have hops : (processExports env gp ts pat claims clinic (some fid)).ops =
      claims.map (exportWriteOp gp (if pat.isEmpty then defaultFileNamePattern else pat)
        ts clinic) := by
    unfold processExports
    dsimp only
    rw [hfold]
    simp
  refine ⟨hops, ?_, ?_, ?_, ?_⟩
  · intro op hop
    rw [hops, List.mem_map] at hop
    obtain ⟨c, -, rfl⟩ := hop
    exact ⟨_, _, rfl⟩
  · show _ ∈ (processExports env gp ts pat claims clinic (some fid)).activity
    unfold processExports
    dsimp only
    rw [hc]
    simp
  · unfold processExports
    dsimp only
    rw [hfold]
    simp
  · unfold processExports
    dsimp only

/-- C7 (witness): the theorem applied to one concrete claim whose write
succeeds while the confirmation call rejects. -/
theorem c7_witness :
    (processExports c7Env c4Gp (("20240115").data) [] [c4Claim] c4Clinic
      (some (("f-1").data))).exportedDelta = 1 := by
  have h := (c7_confirm_failure_keeps_files c7Env c4Gp (("20240115").data) [] [c4Claim]
    c4Clinic (("f-1").data) (by decide) rfl).2.2.2.1
  simpa using h

end SyncAgent
